import Mathlib

/-!
chronos (cron-job.org execution daemon): verification of the ingest and tick code

Shallow embedding of `Utils.cpp`, `UpdateThread.cpp` and `App.cpp`.

* C++ `std::string` values are `String`s, processed through their character lists.
* `int` arithmetic that the code performs itself is modelled on `Int`; the
  explicit narrowing `static_cast<int>` of 64-bit quantities is `castInt`.
* The relational store (MySQL) is a record of tables, each a list of rows;
  `UPDATE` maps over the rows, `SELECT` filters them, `INSERT` appends.
* The per-user log store (SQLite) is a record of two tables; every statement
  executed on it may raise, which is decided by a fault parameter.
-/

namespace Chronos

/-! ## Machine integers -/

/-- Narrowing conversion to a 32-bit signed `int` (two's complement wrap-around). -/
def castInt (x : Int) : Int := (x + 2147483648) % 4294967296 - 2147483648

/-! ## Utils.cpp -/

namespace Utils

/-- Text written by `ss << std::hex << userID` for an `int`: the value is
converted to `unsigned int` and printed in base 16 with lowercase digits. -/
def hexOfInt (userID : Int) : List Char :=
  Nat.toDigits 16 (userID % 4294967296).toNat

/-- Loop of `Utils::userPathPart`: `chars` are the characters `userIdHex[i..]`,
`i` the loop index and `result` the string built so far. -/
def userPathPartLoop : List Char → Nat → List Char → List Char
  | [], _, result => result
  | c :: rest, i, result =>
    userPathPartLoop rest (i + 1)
      (if i % 2 ≠ 0 then (result ++ [c]) ++ ['/'] else result ++ [c])

/-- Final step of `Utils::userPathPart`: drop a trailing `/`. -/
def popTrailingSlash (result : List Char) : List Char :=
  if result.getLast? = some '/' then result.dropLast else result

/-- Embedding of `Utils::userPathPart`. -/
def userPathPart (userID : Int) : String :=
  let userIdHex := hexOfInt userID
  let result := userPathPartLoop userIdHex 0 []
  String.mk (popTrailingSlash result)

/-- Embedding of `Utils::toString(num, places)`: `std::to_string`, then `0` is
inserted at the front while the text is shorter than `places` (which is
non-negative at every call). -/
def toString (num : Int) (places : Nat) : String :=
  let result : List Char :=
    if num < 0 then '-' :: Nat.toDigits 10 num.natAbs else Nat.toDigits 10 num.natAbs
  String.mk (List.replicate (places - result.length) '0' ++ result)

/-- Helper of `std::string::find`: first index at which `search` starts in
`chars`, where `chars` begins at index `i` of the searched string. -/
def findAux (search : List Char) : List Char → Nat → Option Nat
  | [], i => if search.isPrefixOf [] then some i else none
  | c :: cs, i =>
    if search.isPrefixOf (c :: cs) then some i else findAux search cs (i + 1)

/-- Model of `std::string::find(search, pos)`: `none` stands for `npos`. -/
def find (str search : List Char) (pos : Nat) : Option Nat :=
  if pos ≤ str.length then findAux search (str.drop pos) pos else none

/-- Loop of `Utils::replace`. The C++ loop need not terminate (for instance when
`repl` contains `search`), so the embedding counts iterations: `none` means
that `fuel` iterations were not enough. -/
def replaceLoop (search repl : List Char) : Nat → List Char → Nat → Option (List Char)
  | 0, _, _ => none
  | fuel + 1, str, pos =>
    match find str search pos with
    | none => some str
    | some p =>
      replaceLoop search repl fuel
        (str.take p ++ repl ++ str.drop (p + search.length)) (p + search.length)

/-- Embedding of `Utils::replace(str, search, repl)`, the in-place update
returned as a value. -/
def replace (fuel : Nat) (str search repl : String) : Option String :=
  (replaceLoop search.data repl.data fuel str.data 0).map String.mk

end Utils

/-! ## Specification-side notions for `userPathPart` -/

/-- Specification: a `/` after every second character, none at the end. -/
def insertSlashes : List Char → List Char
  | a :: b :: c :: rest => a :: b :: '/' :: insertSlashes (c :: rest)
  | l => l

/-- Value of one lowercase hexadecimal digit. -/
def hexDigitValue (c : Char) : Option Nat :=
  if '0' ≤ c ∧ c ≤ '9' then some (c.toNat - 48)
  else if 'a' ≤ c ∧ c ≤ 'f' then some (c.toNat - 87)
  else none

/-- Value of a string of lowercase hexadecimal digits, most significant first. -/
def hexValue (digits : List Char) : Option Nat :=
  digits.foldl (fun acc c => acc.bind fun v => (hexDigitValue c).map fun d => 16 * v + d) (some 0)

/-! ## Data model -/

/-- Fields of `struct tm` read by the code. -/
structure Tm where
  tm_sec : Int
  tm_min : Int
  tm_hour : Int
  tm_mday : Int
  tm_mon : Int
  tm_year : Int
  deriving DecidableEq, Repr

/-- Modelled from the spec: the enumeration `JobStatus_t` (JobResult.h is not
among the sources). The spec lists OK, FAILED_TIMEOUT, FAILED_OTHER and further
failure kinds, which are collected in `JOBSTATUS_FAILED`. -/
inductive JobStatus_t where
  | JOBSTATUS_OK
  | JOBSTATUS_FAILED_TIMEOUT
  | JOBSTATUS_FAILED_OTHER
  | JOBSTATUS_FAILED (kind : Nat)
  deriving DecidableEq, Repr

/-- Modelled from the spec: the enumeration `NotificationType_t` (Notification.h
is not among the sources), with the three enumerators used by `storeResult`. -/
inductive NotificationType_t where
  | NOTIFICATION_TYPE_FAILURE
  | NOTIFICATION_TYPE_SUCCESS
  | NOTIFICATION_TYPE_DISABLE
  deriving DecidableEq, Repr

/-- Modelled from the spec: the record `JobResult` (JobResult.h is not among the
sources), with the attributes read by `storeResult`. Millisecond instants are
`uint64_t`. -/
structure JobResult where
  jobID : Int
  userID : Int
  url : String
  datePlanned : Nat
  dateStarted : Nat
  duration : Int
  jitter : Int
  status : JobStatus_t
  statusText : String
  httpStatus : Int
  responseHeaders : String
  responseBody : String
  saveResponses : Bool
  notifyFailure : Bool
  notifySuccess : Bool
  notifyDisable : Bool
  oldFailCounter : Int
  deriving DecidableEq, Repr

/-! ### Relational store -/

/-- Row of table `user`. -/
structure UserRow where
  userid : Int
  timezone : String
  deriving DecidableEq, Repr

/-- Row of table `job`, with the columns named in the queries. Integer columns
hold values of `int` range, flags are the columns compared with `1`. -/
structure JobRow where
  jobid : Int
  userid : Int
  url : String
  enabled : Bool
  auth_enable : Bool
  auth_user : String
  auth_pass : String
  notify_failure : Bool
  notify_success : Bool
  notify_disable : Bool
  fail_counter : Int
  save_responses : Bool
  request_method : Int
  last_status : JobStatus_t
  last_fetch : Int
  last_duration : Int
  deriving DecidableEq, Repr

/-- Row of one of the five schedule tables `job_hours`, `job_mdays`, `job_wdays`,
`job_minutes`, `job_months`: `value` is the column `hour`, `mday`, `wday`,
`minute` or `month`. -/
structure ScheduleRow where
  jobid : Int
  value : Int
  deriving DecidableEq, Repr

/-- Row of table `job_header`. -/
structure JobHeaderRow where
  jobheaderid : Int
  jobid : Int
  key : String
  value : String
  deriving DecidableEq, Repr

/-- Row of table `job_body`. -/
structure JobBodyRow where
  jobid : Int
  body : String
  deriving DecidableEq, Repr

/-- Row of table `notification`. -/
structure NotificationRow where
  jobid : Int
  joblogid : Int
  date : Int
  type : NotificationType_t
  deriving DecidableEq, Repr

/-- The relational store reached through `db->query`. -/
structure MySQL_DB where
  user : List UserRow
  job : List JobRow
  job_hours : List ScheduleRow
  job_mdays : List ScheduleRow
  job_wdays : List ScheduleRow
  job_minutes : List ScheduleRow
  job_months : List ScheduleRow
  job_header : List JobHeaderRow
  job_body : List JobBodyRow
  notification : List NotificationRow
  deriving DecidableEq, Repr

/-! ### Per-user log store -/

/-- Row of table `joblog`, as created by the DDL in `storeResult`. -/
structure JobLogRow where
  joblogid : Int
  jobid : Int
  date : Int
  date_planned : Int
  jitter : Int
  url : String
  duration : Int
  status : JobStatus_t
  status_text : String
  http_status : Int
  created : Int
  deriving DecidableEq, Repr

/-- Row of table `joblog_response`, as created by the DDL in `storeResult`. -/
structure JobLogResponseRow where
  joblogid : Int
  jobid : Int
  date : Int
  headers : String
  body : String
  created : Int
  deriving DecidableEq, Repr

/-- Content of one per-user, per-day database file. -/
structure SQLite_DB where
  joblog : List JobLogRow
  joblog_response : List JobLogResponseRow
  deriving DecidableEq, Repr

/-- Statements of the `try` block of `storeResult`, in execution order: opening
the file, the pragma and the three DDL statements, the `joblog` insert and the
`joblog_response` insert. -/
inductive SQLiteStep where
  | openDB
  | ddl
  | insertJobLog
  | insertJobLogResponse
  deriving DecidableEq, Repr

/-- Modelled from the spec: `SQLite_DB::insertId` (SQLite.h is not among the
sources) yields the primary key of the row just inserted, a 64-bit row id.
`joblogid` is an `INTEGER PRIMARY KEY`, so the store assigns the largest key in
use plus one. The narrowing `static_cast<int>` is applied by `storeResult`. -/
def insertId (joblog : List JobLogRow) : Int :=
  joblog.foldl (fun m row => max m row.joblogid) 0 + 1

/-- Everything `storeResult` can change: the relational store and the per-user
database files, addressed by path. -/
structure World where
  db : MySQL_DB
  userDBs : String → SQLite_DB

/-! ## UpdateThread.cpp -/

/-- Configuration held by the `UpdateThread` object. -/
structure UpdateThread where
  maxFailures : Int
  userDbFilePathScheme : String
  userDbFileNameScheme : String
  deriving DecidableEq, Repr

namespace UpdateThread

/-- Directory of the user's databases: `userDbFilePathScheme` after
`Utils::replace(dbDirPath, "%u", userPathPart)`. One iteration per `%` of the
scheme suffices, see `dbDirPath_isSome`. -/
def dbDirPath (self : UpdateThread) (result : JobResult) : Option String :=
  Utils.replace (self.userDbFilePathScheme.length + 1) self.userDbFilePathScheme "%u"
    (Utils.userPathPart result.userID)

/-- File name of the database: `userDbFileNameScheme` after the replacement of
`%d` and then of `%m`. -/
def dbFileName (self : UpdateThread) (tmStruct : Tm) : Option String :=
  (Utils.replace (self.userDbFileNameScheme.length + 1) self.userDbFileNameScheme "%d"
    (Utils.toString tmStruct.tm_mday 2)).bind fun dbFileName =>
  Utils.replace (dbFileName.length + 1) dbFileName "%m" (Utils.toString tmStruct.tm_mon 2)

/-- Path `dbDirPath + "/" + dbFileName`. -/
def dbFilePath (self : UpdateThread) (tmStruct : Tm) (result : JobResult) : Option String :=
  (dbDirPath self result).bind fun dir =>
  (dbFileName self tmStruct).map fun name => dir ++ "/" ++ name

/-- Condition guarding the `joblog_response` insert. -/
def wantsResponse (result : JobResult) : Bool :=
  result.saveResponses && (!(result.responseHeaders == "") || !(result.responseBody == ""))

/-- The row bound to the `INSERT INTO joblog` statement; `created` is the clock
read by `strftime('%s', 'now')`. -/
def jobLogRow (created jobLogID : Int) (result : JobResult) : JobLogRow :=
  { joblogid := jobLogID
    jobid := result.jobID
    date := castInt (result.dateStarted / 1000)
    date_planned := castInt (result.datePlanned / 1000)
    jitter := result.jitter
    url := result.url
    duration := result.duration
    status := result.status
    status_text := result.statusText
    http_status := result.httpStatus
    created := created }

/-- The row bound to the `INSERT INTO joblog_response` statement. -/
def jobLogResponseRow (created jobLogID : Int) (result : JobResult) : JobLogResponseRow :=
  { joblogid := jobLogID
    jobid := result.jobID
    date := castInt (result.dateStarted / 1000)
    headers := result.responseHeaders
    body := result.responseBody
    created := created }

/-- The `try` block of `storeResult` on the opened database `userDB`. `fault` is
the statement at which the store raises when it is reached (`none`: no statement
raises); `created` is the clock of the store, read by `strftime('%s', 'now')`.
The `joblog` row receives the key assigned by the store; `jobLogID` is
`static_cast<int>(userDB->insertId())`. The result is the database as left
behind and either the caught exception or `jobLogID`. -/
def writeJobLog (created : Int) (fault : Option SQLiteStep) (userDB : SQLite_DB)
    (result : JobResult) : SQLite_DB × Except String Int :=
  if fault = some SQLiteStep.openDB then (userDB, Except.error "open")
  else if fault = some SQLiteStep.ddl then (userDB, Except.error "ddl")
  else if fault = some SQLiteStep.insertJobLog then (userDB, Except.error "joblog")
  else
    let rowID := insertId userDB.joblog
    let userDB1 : SQLite_DB :=
      { userDB with joblog := userDB.joblog ++ [jobLogRow created rowID result] }
    let jobLogID := castInt rowID
    if wantsResponse result then
      if fault = some SQLiteStep.insertJobLogResponse then
        (userDB1, Except.error "joblog_response")
      else
        ({ userDB1 with
           joblog_response :=
             userDB1.joblog_response ++ [jobLogResponseRow created jobLogID result] },
          Except.ok jobLogID)
    else (userDB1, Except.ok jobLogID)

/-- Whether a statement up to and including the `joblog` insert raises. -/
def jobLogInsertRaises (fault : Option SQLiteStep) : Bool :=
  fault == some SQLiteStep.openDB || fault == some SQLiteStep.ddl
    || fault == some SQLiteStep.insertJobLog

/-- Whether the `try` block raises: a statement that is reached raises. -/
def logWriteRaises (fault : Option SQLiteStep) (result : JobResult) : Bool :=
  jobLogInsertRaises fault
    || (fault == some SQLiteStep.insertJobLogResponse && wantsResponse result)

/-- Effect of the `UPDATE job SET last_status, last_fetch, last_duration,
fail_counter` statement on a row it selects: `fail_counter=0` in the branch for
OK and FAILED_TIMEOUT, `fail_counter=fail_counter+1` in the other branch. -/
def updatedRow (result : JobResult) (row : JobRow) : JobRow :=
  { row with
    last_status := result.status
    last_fetch := castInt (result.dateStarted / 1000)
    last_duration := castInt result.duration
    fail_counter :=
      if result.status = JobStatus_t.JOBSTATUS_OK
          ∨ result.status = JobStatus_t.JOBSTATUS_FAILED_TIMEOUT then 0
      else row.fail_counter + 1 }

/-- The first `UPDATE job` statement of `storeResult`, `WHERE jobid = jobID`. -/
def updateJobQuery (db : MySQL_DB) (result : JobResult) : MySQL_DB :=
  { db with
    job := db.job.map fun row =>
      if row.jobid = result.jobID then updatedRow result row else row }

/-- The `SELECT fail_counter` statement and the fetch loop: `failCounter` starts
at 0 and takes the value of every fetched row in turn. -/
def selectFailCounter (db : MySQL_DB) (jobID : Int) : Int :=
  (db.job.filter fun row => row.jobid = jobID).foldl (fun _ row => row.fail_counter) 0

/-- Effect of `UPDATE job SET enabled=0, fail_counter=0` on a row it selects. -/
def disabledRow (row : JobRow) : JobRow :=
  { row with enabled := false, fail_counter := 0 }

/-- The `UPDATE job SET enabled=0, fail_counter=0` statement, `WHERE jobid = jobID`. -/
def disableJobQuery (db : MySQL_DB) (jobID : Int) : MySQL_DB :=
  { db with
    job := db.job.map fun row => if row.jobid = jobID then disabledRow row else row }

/-- The three notification tests of `storeResult`, in source order. The pair
`createNotificationRow`, `notificationType` is an `Option`: the type is assigned
exactly where the flag is set, and a later test overwrites an earlier one. -/
def notificationDecision (self : UpdateThread) (result : JobResult) (failCounter : Int) :
    Option NotificationType_t :=
  let n0 : Option NotificationType_t := none
  let n1 :=
    if failCounter > self.maxFailures ∧ result.notifyDisable = true then
      some NotificationType_t.NOTIFICATION_TYPE_DISABLE
    else n0
  let n2 :=
    if result.notifyFailure = true ∧ result.status ≠ JobStatus_t.JOBSTATUS_OK
        ∧ failCounter = 1 then
      some NotificationType_t.NOTIFICATION_TYPE_FAILURE
    else n1
  if result.notifySuccess = true ∧ result.status = JobStatus_t.JOBSTATUS_OK
      ∧ result.oldFailCounter > 0 ∧ failCounter = 0 then
    some NotificationType_t.NOTIFICATION_TYPE_SUCCESS
  else n2

/-- The value of `failCounter` that `storeResult` reads back after its update. -/
def observedFailCounter (db : MySQL_DB) (result : JobResult) : Int :=
  selectFailCounter (updateJobQuery db result) result.jobID

/-- The part of `storeResult` after the `try` block: metadata update, re-read
of the counter, auto-disable and notification insert. `now` is `time(NULL)`. -/
def applyResult (self : UpdateThread) (now : Int) (db : MySQL_DB) (result : JobResult)
    (jobLogID : Int) : MySQL_DB :=
  let db1 := updateJobQuery db result
  let failCounter := selectFailCounter db1 result.jobID
  let db2 := if failCounter > self.maxFailures then disableJobQuery db1 result.jobID else db1
  match notificationDecision self result failCounter with
  | some notificationType =>
    { db2 with
      notification := db2.notification ++
        [{ jobid := result.jobID
           joblogid := jobLogID
           date := castInt now
           type := notificationType }] }
  | none => db2

/-- Embedding of `UpdateThread::storeResult`. `gmtime_r` is the C library
function (`none`: null pointer), `now` the value of `time(NULL)`, `created` the
clock read by the log store, `fault` the statement of the log store that
raises. The outcome is `none` when a replacement loop does not finish,
`Except.error` when an exception leaves the function, and `Except.ok` with the
new state when the function returns. The directory creation and the queries of
the relational store are taken to succeed. -/
def storeResult (self : UpdateThread) (gmtime_r : Int → Option Tm) (now created : Int)
    (fault : Option SQLiteStep) (w : World) (result : JobResult) :
    Option (Except String World) :=
  match gmtime_r (result.datePlanned / 1000 : Nat) with
  | none => some (Except.error "gmtime_r returned nullptr")
  | some tmStruct =>
    match dbFilePath self tmStruct result with
    | none => none
    | some path =>
      match writeJobLog created fault (w.userDBs path) result with
      | (userDB, Except.error _) =>
        some (Except.ok { w with userDBs := Function.update w.userDBs path userDB })
      | (userDB, Except.ok jobLogID) =>
        some (Except.ok
          { db := applyResult self now w.db result jobLogID
            userDBs := Function.update w.userDBs path userDB })

/-- The drain loop of `UpdateThread::run`: `storeResult` for each queued result
in turn, each with the two clock values and the log-store fault of its call. An
exception or a non-finishing call ends the loop. -/
def storeResults (self : UpdateThread) (gmtime_r : Int → Option Tm) :
    World → List (Int × Int × Option SQLiteStep × JobResult) →
      Option (Except String World)
  | w, [] => some (Except.ok w)
  | w, (now, created, fault, result) :: rest =>
    match storeResult self gmtime_r now created fault w result with
    | some (Except.ok w') => storeResults self gmtime_r w' rest
    | other => other

end UpdateThread

/-! ## App.cpp -/

/-- Modelled from the spec: the request descriptor `HTTPRequest` with its
attached result slot (HTTPRequest.h is not among the sources), reduced to the
fields that `processJobsForTimeZone` fills in. -/
structure HTTPRequest where
  url : String
  userID : Int
  jobID : Int
  datePlanned : Nat
  notifyFailure : Bool
  notifySuccess : Bool
  notifyDisable : Bool
  oldFailCounter : Int
  saveResponses : Bool
  useAuth : Bool
  authUsername : String
  authPassword : String
  requestMethod : Int
  requestHeaders : List (String × String)
  requestBody : String
  deriving DecidableEq, Repr

namespace App

/-- One row of the join evaluated by the query of `processJobsForTimeZone`. -/
structure JoinRow where
  job : JobRow
  hour : ScheduleRow
  mday : ScheduleRow
  wday : ScheduleRow
  minute : ScheduleRow
  month : ScheduleRow
  user : UserRow
  header : Option JobHeaderRow
  body : Option JobBodyRow
  deriving DecidableEq, Repr

/-- One row of the result set of the query, after `GROUP BY job.jobid`:
the columns of the job, `COUNT(job_header.jobheaderid)` and `job_body.body`. -/
structure JobQueryRow where
  job : JobRow
  headerCount : Nat
  body : Option String
  deriving DecidableEq, Repr

/-- Semantics of `LEFT JOIN`: the matching rows, or one row of nulls. -/
def leftJoin {β γ : Type} (rows : List β) (k : Option β → List γ) : List γ :=
  match rows with
  | [] => k none
  | _ :: _ => rows.flatMap fun b => k (some b)

/-- The `FROM` clause: five inner joins on `jobid`, the inner join with `user`
and the two left joins. -/
def jobJoin (db : MySQL_DB) : List JoinRow :=
  db.job.flatMap fun job =>
  (db.job_hours.filter fun r => r.jobid = job.jobid).flatMap fun hour =>
  (db.job_mdays.filter fun r => r.jobid = job.jobid).flatMap fun mday =>
  (db.job_wdays.filter fun r => r.jobid = job.jobid).flatMap fun wday =>
  (db.job_minutes.filter fun r => r.jobid = job.jobid).flatMap fun minute =>
  (db.job_months.filter fun r => r.jobid = job.jobid).flatMap fun month =>
  (db.user.filter fun u => job.userid = u.userid).flatMap fun user =>
  leftJoin (db.job_header.filter fun h => h.jobid = job.jobid) fun header =>
  leftJoin (db.job_body.filter fun b => b.jobid = job.jobid) fun body =>
  [{ job := job, hour := hour, mday := mday, wday := wday, minute := minute,
     month := month, user := user, header := header, body := body }]

/-- The `WHERE` clause, with the arguments in the order of the format string:
`hour, minute, mday, wday, month, timeZone`. -/
def jobWhere (hour minute mday wday month : Int) (timeZone : String) (r : JoinRow) : Bool :=
  decide ((r.hour.value = -1 ∨ r.hour.value = hour)
    ∧ (r.minute.value = -1 ∨ r.minute.value = minute)
    ∧ (r.mday.value = -1 ∨ r.mday.value = mday)
    ∧ (r.wday.value = -1 ∨ r.wday.value = wday)
    ∧ (r.month.value = -1 ∨ r.month.value = month)
    ∧ r.user.timezone = timeZone
    ∧ r.job.enabled = true)

/-- The `GROUP BY job.jobid` clause: one row per distinct `jobid`, with the count
of non-null `jobheaderid` over the group and the plain columns of its first row. -/
def groupByJobId (rows : List JoinRow) : List JobQueryRow :=
  (rows.map fun r => r.job.jobid).dedup.filterMap fun jobid =>
    match rows.filter fun r => r.job.jobid = jobid with
    | [] => none
    | first :: rest =>
      some
        { job := first.job
          headerCount := ((first :: rest).filter fun r => r.header.isSome).length
          body := first.body.map fun b => b.body }

/-- The `ORDER BY fail_counter ASC, last_duration ASC` relation. -/
def orderLe (a b : JobQueryRow) : Prop :=
  a.job.fail_counter < b.job.fail_counter
    ∨ (a.job.fail_counter = b.job.fail_counter ∧ a.job.last_duration ≤ b.job.last_duration)

instance : DecidableRel orderLe := fun a b => by
  unfold orderLe
  exact inferInstance

/-- Result set of the query of `processJobsForTimeZone`. -/
def jobQuery (db : MySQL_DB) (hour minute mday wday month : Int) (timeZone : String) :
    List JobQueryRow :=
  (groupByJobId ((jobJoin db).filter (jobWhere hour minute mday wday month timeZone))).insertionSort
    orderLe

/-- The SQL function `TRIM`: leading and trailing spaces are removed. -/
def sqlTrim (s : String) : String :=
  String.mk (((s.data.dropWhile fun c => c = ' ').reverse.dropWhile fun c => c = ' ').reverse)

/-- Body of the fetch loop: the request built from one row of the result set.
`timestamp` is a `time_t`, converted to `uint64_t` before the multiplication. -/
def buildRequest (db : MySQL_DB) (timestamp : Int) (row : JobQueryRow) : HTTPRequest :=
  { url := sqlTrim row.job.url
    userID := row.job.userid
    jobID := row.job.jobid
    datePlanned := ((timestamp % 18446744073709551616).toNat * 1000) % 18446744073709551616
    notifyFailure := row.job.notify_failure
    notifySuccess := row.job.notify_success
    notifyDisable := row.job.notify_disable
    oldFailCounter := row.job.fail_counter
    saveResponses := row.job.save_responses
    useAuth := row.job.auth_enable
    authUsername := if row.job.auth_enable then row.job.auth_user else ""
    authPassword := if row.job.auth_enable then row.job.auth_pass else ""
    requestMethod := row.job.request_method
    requestHeaders :=
      if row.headerCount > 0 then
        (db.job_header.filter fun h => h.jobid = row.job.jobid).map fun h => (h.key, h.value)
      else []
    requestBody := row.body.getD "" }

/-- Embedding of `App::processJobsForTimeZone`: the requests handed to
`wt->addJob`, in order. The parameter order is that of the C++ signature. -/
def processJobsForTimeZone (db : MySQL_DB) (hour minute month mday wday _year : Int)
    (timestamp : Int) (timeZone : String) : List HTTPRequest :=
  let res := jobQuery db hour minute mday wday month timeZone
  let jobCount := res.length
  if jobCount > 0 then res.map (buildRequest db timestamp) else []

/-- Embedding of `App::calcJitterCorrectionOffset`. -/
def calcJitterCorrectionOffset : Int := 1

/-- Local variables of `App::run` that live across iterations of the loop. -/
structure RunState where
  firstLoop : Bool
  lastTime : Tm
  jitterCorrectionOffset : Int
  deriving DecidableEq, Repr

/-- One call `processJobs(forTime, plannedTime)`. -/
structure ProcessJobsCall where
  forTime : Int
  plannedTime : Int
  deriving DecidableEq, Repr

/-- The test of the loop of `App::run`: a field of `t` among minute, hour, day
of month, month, year is greater than the field of `lastTime`. -/
def timeAdvanced (t lastTime : Tm) : Prop :=
  t.tm_min > lastTime.tm_min
    ∨ t.tm_hour > lastTime.tm_hour
    ∨ t.tm_mday > lastTime.tm_mday
    ∨ t.tm_mon > lastTime.tm_mon
    ∨ t.tm_year > lastTime.tm_year

instance (t lastTime : Tm) : Decidable (timeAdvanced t lastTime) := by
  unfold timeAdvanced
  exact inferInstance

/-- One iteration of the loop of `App::run`. `localtime` is the C library
function, `clock` the value of `time(nullptr)` read in this iteration. The
result is the state after the iteration and the call of `processJobs` made in
it, if any. -/
def runStep (localtime : Int → Tm) (st : RunState) (clock : Int) :
    RunState × Option ProcessJobsCall :=
  let currentTime := clock + st.jitterCorrectionOffset
  let t := localtime currentTime
  if timeAdvanced t st.lastTime then
    if st.firstLoop = false ∨ t.tm_sec = 59 - st.jitterCorrectionOffset then
      ({ firstLoop := false, lastTime := t, jitterCorrectionOffset := calcJitterCorrectionOffset },
        some { forTime := currentTime, plannedTime := currentTime - t.tm_sec })
    else
      ({ firstLoop := false, lastTime := t,
         jitterCorrectionOffset := st.jitterCorrectionOffset }, none)
  else (st, none)

/-- The loop of `App::run` from state `st`, over the successive values of the
wall clock; the loop ends (stop flag) when the samples end. The result lists,
per iteration, the clock value read and the call of `processJobs` made. -/
def runLoop (localtime : Int → Tm) :
    RunState → List Int → List (Int × Option ProcessJobsCall)
  | _, [] => []
  | st, clock :: rest =>
    (clock, (runStep localtime st clock).2)
      :: runLoop localtime (runStep localtime st clock).1 rest

/-- Embedding of the tick loop of `App::run`, from its initial state. -/
def run (localtime : Int → Tm) (clocks : List Int) : List (Int × Option ProcessJobsCall) :=
  runLoop localtime
    { firstLoop := true
      lastTime := { tm_sec := 0, tm_min := 0, tm_hour := 0, tm_mday := 0, tm_mon := 0,
                    tm_year := 0 }
      jitterCorrectionOffset := calcJitterCorrectionOffset } clocks

end App

/-! ## Specification-side notions for the matcher and the tick loop -/

/-- The schedule set of job `jobid` in one of the five schedule tables. -/
def scheduleSet (table : List ScheduleRow) (jobid : Int) : List Int :=
  (table.filter fun r => r.jobid = jobid).map fun r => r.value

/-- Two broken-down times lie in the same calendar minute. -/
def sameMinute (a b : Tm) : Prop :=
  a.tm_min = b.tm_min ∧ a.tm_hour = b.tm_hour ∧ a.tm_mday = b.tm_mday
    ∧ a.tm_mon = b.tm_mon ∧ a.tm_year = b.tm_year

instance (a b : Tm) : Decidable (sameMinute a b) := by
  unfold sameMinute
  exact inferInstance

/-- Calendar date `(year, month, day)` of the day number `z` counted from
1970-01-01, in the proleptic Gregorian calendar. -/
def civilFromDays (z : Int) : Int × Int × Int :=
  let z := z + 719468
  let era := z / 146097
  let doe := z - era * 146097
  let yoe := (doe - doe / 1460 + doe / 36524 - doe / 146096) / 365
  let y := yoe + era * 400
  let doy := doe - (365 * yoe + yoe / 4 - yoe / 100)
  let mp := (5 * doy + 2) / 153
  let d := doy - (153 * mp + 2) / 5 + 1
  let m := if mp < 10 then mp + 3 else mp - 9
  (if m ≤ 2 then y + 1 else y, m, d)

/-- Broken-down time of minute number `m` (minutes since the epoch) and second
`sec` within it, in UTC. -/
def tmOfMinute (m sec : Int) : Tm :=
  let date := civilFromDays (m / 1440)
  { tm_sec := sec
    tm_min := m % 60
    tm_hour := (m / 60) % 24
    tm_mday := date.2.2
    tm_mon := date.2.1 - 1
    tm_year := date.1 - 1900 }

/-- Day number counted from 1970-01-01 of the calendar date `(y, m, d)`. -/
def daysFromCivil (y m d : Int) : Int :=
  let y := if m ≤ 2 then y - 1 else y
  let era := y / 400
  let yoe := y - era * 400
  let mp := if m > 2 then m - 3 else m + 9
  let doy := (153 * mp + 2) / 5 + d - 1
  let doe := yoe * 365 + yoe / 4 - yoe / 100 + doy
  era * 146097 + doe - 719468

/-- The `plannedTime` arguments of the calls of `processJobs` in a run, in order. -/
def plannedTimes (trace : List (Int × Option App.ProcessJobsCall)) : List Int :=
  (trace.filterMap fun x => x.2).map fun call => call.plannedTime

/-- The C library function `localtime` of a process running in UTC. -/
def utcTime (t : Int) : Tm := tmOfMinute (t / 60) (t % 60)

/-! ## Specification-side notions for the file name -/

/-- Specification: `n` written as exactly two decimal digits, zero-padded. -/
def twoDigits (n : Nat) : List Char :=
  [Nat.digitChar (n / 10), Nat.digitChar (n % 10)]

/-- Specification: the text with every occurrence of the placeholder `%x`
replaced by `repl`, reading from the left. -/
def replacePlaceholder (x : Char) (repl : List Char) : List Char → List Char
  | c :: d :: rest =>
    if c = '%' ∧ d = x then repl ++ replacePlaceholder x repl rest
    else c :: replacePlaceholder x repl (d :: rest)
  | l => l

/-- Specification: the scheme with every occurrence of `%d` replaced by `day`
and every occurrence of `%m` replaced by `month`. -/
def substituteDayMonth (day month : List Char) : List Char → List Char
  | c :: d :: rest =>
    if c = '%' ∧ d = 'd' then day ++ substituteDayMonth day month rest
    else if c = '%' ∧ d = 'm' then month ++ substituteDayMonth day month rest
    else c :: substituteDayMonth day month (d :: rest)
  | l => l

/-! ## Concrete scenarios -/

/-- Relational store of an outcome of `storeResult`, when the call returned. -/
def resultingDb (outcome : Option (Except String World)) : Option MySQL_DB :=
  match outcome with
  | some (Except.ok w) => some w.db
  | _ => none

/-- Per-user database at `path` of an outcome of `storeResult`, when the call
returned. -/
def resultingUserDB (outcome : Option (Except String World)) (path : String) :
    Option SQLite_DB :=
  match outcome with
  | some (Except.ok w) => some (w.userDBs path)
  | _ => none

/-- The C library function `gmtime_r`, which does not fail on the instants used. -/
def scenarioGmtime (t : Int) : Option Tm := some (utcTime t)

/-- Configuration with `max_failures = 2`. -/
def scenarioConfig : UpdateThread :=
  { maxFailures := 2
    userDbFilePathScheme := "/var/lib/cron-job.org/%u"
    userDbFileNameScheme := "joblog-%m-%d.db" }

/-- An enabled job of user `0x1a2b` with all notifications requested and
`fail_counter = 0`, scheduled at minute 55 of every hour. -/
def scenarioJob : JobRow :=
  { jobid := 7
    userid := 0x1a2b
    url := " http://example.org/ping "
    enabled := true
    auth_enable := false
    auth_user := ""
    auth_pass := ""
    notify_failure := true
    notify_success := true
    notify_disable := true
    fail_counter := 0
    save_responses := true
    request_method := 0
    last_status := JobStatus_t.JOBSTATUS_OK
    last_fetch := 0
    last_duration := 0 }

/-- Another job of the same user, disabled, scheduled at 09:55. -/
def scenarioOtherJob : JobRow :=
  { scenarioJob with jobid := 8, enabled := false, fail_counter := 1 }

/-- A relational store with one user and two jobs. -/
def scenarioDb : MySQL_DB :=
  { user := [{ userid := 0x1a2b, timezone := "Etc/UTC" }]
    job := [scenarioOtherJob, scenarioJob]
    job_hours := [{ jobid := 7, value := -1 }, { jobid := 8, value := 9 }]
    job_mdays := [{ jobid := 7, value := -1 }, { jobid := 8, value := -1 }]
    job_wdays := [{ jobid := 7, value := -1 }, { jobid := 8, value := -1 }]
    job_minutes := [{ jobid := 7, value := 55 }, { jobid := 7, value := 25 },
      { jobid := 8, value := 55 }]
    job_months := [{ jobid := 7, value := -1 }, { jobid := 8, value := -1 }]
    job_header := [{ jobheaderid := 1, jobid := 7, key := "X-Ping", value := "1" }]
    job_body := []
    notification := [] }

/-- The initial state: the store above and empty per-user database files. -/
def scenarioWorld : World :=
  { db := scenarioDb
    userDBs := fun _ => { joblog := [], joblog_response := [] } }

/-- A failed execution of job 7, planned at 2020-01-06 09:55:00 UTC. -/
def scenarioFailure : JobResult :=
  { jobID := 7
    userID := 0x1a2b
    url := "http://example.org/ping"
    datePlanned := 1578304500000
    dateStarted := 1578304500120
    duration := 40
    jitter := 120
    status := JobStatus_t.JOBSTATUS_FAILED_OTHER
    statusText := "Connection refused"
    httpStatus := 0
    responseHeaders := ""
    responseBody := "body"
    saveResponses := true
    notifyFailure := true
    notifySuccess := true
    notifyDisable := true
    oldFailCounter := 0 }

/-- A successful execution of job 7 after three failures. -/
def scenarioSuccess : JobResult :=
  { scenarioFailure with
    status := JobStatus_t.JOBSTATUS_OK
    statusText := "OK"
    httpStatus := 200
    oldFailCounter := 3 }

/-- Path of the database file that the scenario results are logged to. -/
def scenarioPath : String := "/var/lib/cron-job.org/1a/2b/joblog-00-06.db"

/-- The initial state with a database file whose `joblog` already holds a row
with the largest key that fits in an `int`. -/
def scenarioLargeKeyWorld : World :=
  { db := scenarioDb
    userDBs := fun _ =>
      { joblog := [UpdateThread.jobLogRow 1578218100 2147483647 scenarioFailure]
        joblog_response := [] } }

/-! ## Lemmas on digit strings -/

theorem toDigitsCore_fuel (b : Nat) (hb : 2 ≤ b) (n : Nat) :
    ∀ f g acc, n < f → n < g →
      Nat.toDigitsCore b f n acc = Nat.toDigitsCore b g n [] ++ acc := by
  induction n using Nat.strong_induction_on with
  | _ n ih =>
    intro f g acc hf hg
    obtain ⟨f, rfl⟩ : ∃ k, f = k + 1 := ⟨f - 1, by omega⟩
    obtain ⟨g, rfl⟩ : ∃ k, g = k + 1 := ⟨g - 1, by omega⟩
    simp only [Nat.toDigitsCore]
    by_cases h : n / b = 0
    · simp [h]
    · simp only [h, if_false]
      have hlt : n / b < n := by
        have hpos : 0 < n := by
          rcases Nat.eq_zero_or_pos n with h0 | h0
          · simp [h0] at h
          · exact h0
        exact Nat.div_lt_self hpos (by omega)
      rw [ih (n / b) hlt f g _ (by omega) (by omega),
        ih (n / b) hlt g g [Nat.digitChar (n % b)] (by omega) (by omega)]
      simp

theorem toDigits_small (b : Nat) (n : Nat) (h : n / b = 0) :
    Nat.toDigits b n = [Nat.digitChar (n % b)] := by
  simp [Nat.toDigits, Nat.toDigitsCore, h]

theorem toDigits_step (b : Nat) (hb : 2 ≤ b) (n : Nat) (h : n / b ≠ 0) :
    Nat.toDigits b n = Nat.toDigits b (n / b) ++ [Nat.digitChar (n % b)] := by
  have hpos : 0 < n := by
    rcases Nat.eq_zero_or_pos n with h0 | h0
    · simp [h0] at h
    · exact h0
  have hlt : n / b < n := Nat.div_lt_self hpos (by omega)
  show Nat.toDigitsCore b (n + 1) n [] = _
  simp only [Nat.toDigitsCore, h, if_false]
  rw [toDigitsCore_fuel b hb (n / b) n (n / b + 1) _ hlt (by omega)]
  rfl

theorem hexDigitValue_digitChar (d : Nat) (h : d < 16) :
    hexDigitValue (Nat.digitChar d) = some d := by
  interval_cases d <;> rfl

theorem digitChar_ne_of_lt (c : Char) (hc : hexDigitValue c = none) (d : Nat) (h : d < 16) :
    Nat.digitChar d ≠ c := by
  intro heq
  rw [← heq, hexDigitValue_digitChar d h] at hc
  exact Option.noConfusion hc

theorem hexValue_append_single (ds : List Char) (c : Char) :
    hexValue (ds ++ [c]) =
      (hexValue ds).bind fun v => (hexDigitValue c).map fun d => 16 * v + d := by
  simp [hexValue, List.foldl_append]

theorem hexValue_toDigits (n : Nat) : hexValue (Nat.toDigits 16 n) = some n := by
  induction n using Nat.strong_induction_on with
  | _ n ih =>
    by_cases h : n / 16 = 0
    · rw [toDigits_small 16 n h]
      have hn : n < 16 := by omega
      rw [Nat.mod_eq_of_lt hn]
      simp [hexValue, hexDigitValue_digitChar n hn]
    · have hlt : n / 16 < n := by omega
      rw [toDigits_step 16 (by omega) n h, hexValue_append_single, ih _ hlt,
        hexDigitValue_digitChar (n % 16) (Nat.mod_lt _ (by omega))]
      simp only [Option.some_bind, Option.map_some']
      congr 1
      omega

theorem mem_toDigits_base (b : Nat) (hb : 2 ≤ b) (n : Nat) :
    ∀ c ∈ Nat.toDigits b n, ∃ d, d < b ∧ c = Nat.digitChar d := by
  induction n using Nat.strong_induction_on with
  | _ n ih =>
    intro c hc
    by_cases h : n / b = 0
    · rw [toDigits_small b n h] at hc
      simp only [List.mem_singleton] at hc
      exact ⟨n % b, Nat.mod_lt _ (by omega), hc⟩
    · have hpos : 0 < n := by
        rcases Nat.eq_zero_or_pos n with h0 | h0
        · simp [h0] at h
        · exact h0
      have hlt : n / b < n := Nat.div_lt_self hpos (by omega)
      rw [toDigits_step b hb n h, List.mem_append] at hc
      rcases hc with hc | hc
      · exact ih _ hlt c hc
      · simp only [List.mem_singleton] at hc
        exact ⟨n % b, Nat.mod_lt _ (by omega), hc⟩

theorem mem_toDigits_hex (n : Nat) :
    ∀ c ∈ Nat.toDigits 16 n, ∃ d, d < 16 ∧ c = Nat.digitChar d :=
  mem_toDigits_base 16 (by omega) n

theorem head_toDigits_hex (n : Nat) (hn : 0 < n) :
    ∃ d, 0 < d ∧ d < 16 ∧ (Nat.toDigits 16 n).head? = some (Nat.digitChar d) := by
  induction n using Nat.strong_induction_on with
  | _ n ih =>
    by_cases h : n / 16 = 0
    · rw [toDigits_small 16 n h]
      have hlt : n < 16 := by omega
      exact ⟨n % 16, by omega, by omega, rfl⟩
    · have hlt : n / 16 < n := by omega
      obtain ⟨d, hd0, hd16, hd⟩ := ih _ hlt (by omega)
      refine ⟨d, hd0, hd16, ?_⟩
      rw [toDigits_step 16 (by omega) n h]
      cases hds : Nat.toDigits 16 (n / 16) with
      | nil => rw [hds] at hd; simp at hd
      | cons x xs => rw [hds] at hd; simpa using hd

/-! ## Lemmas on the `userPathPart` loop -/

theorem list_two_step {P : List Char → Prop} (h0 : P []) (h1 : ∀ a, P [a])
    (h2 : ∀ a b rest, P rest → P (a :: b :: rest)) : ∀ l, P l
  | [] => h0
  | [a] => h1 a
  | a :: b :: rest => h2 a b rest (list_two_step h0 h1 h2 rest)

theorem userPathPartLoop_acc (l : List Char) :
    ∀ i acc, Utils.userPathPartLoop l i acc = acc ++ Utils.userPathPartLoop l i [] := by
  induction l with
  | nil => intro i acc; simp [Utils.userPathPartLoop]
  | cons c rest ih =>
    intro i acc
    simp only [Utils.userPathPartLoop]
    rw [ih (i + 1) (if i % 2 ≠ 0 then (acc ++ [c]) ++ ['/'] else acc ++ [c]),
      ih (i + 1) (if i % 2 ≠ 0 then ([] ++ [c]) ++ ['/'] else [] ++ [c])]
    split <;> simp

theorem userPathPartLoop_pair (a b : Char) (rest : List Char) (i : Nat) (hi : i % 2 = 0) :
    Utils.userPathPartLoop (a :: b :: rest) i [] =
      a :: b :: '/' :: Utils.userPathPartLoop rest (i + 2) [] := by
  have h1 : (i + 1) % 2 ≠ 0 := by omega
  simp only [Utils.userPathPartLoop, hi, h1, ne_eq, not_true_eq_false, if_false,
    not_false_eq_true, if_true]
  rw [userPathPartLoop_acc]
  simp

theorem popTrailingSlash_cons (x : Char) (l : List Char) (hl : l ≠ []) :
    Utils.popTrailingSlash (x :: l) = x :: Utils.popTrailingSlash l := by
  cases l with
  | nil => exact absurd rfl hl
  | cons y ys =>
    simp only [Utils.popTrailingSlash, List.getLast?_cons_cons, List.dropLast_cons₂]
    split <;> rfl

theorem userPathPartLoop_ne_nil (c : Char) (rest : List Char) (i : Nat) :
    Utils.userPathPartLoop (c :: rest) i [] ≠ [] := by
  simp only [Utils.userPathPartLoop]
  rw [userPathPartLoop_acc]
  split <;> simp

theorem popTrailingSlash_loop (l : List Char) :
    ∀ i, i % 2 = 0 → '/' ∉ l →
      Utils.popTrailingSlash (Utils.userPathPartLoop l i []) = insertSlashes l := by
  induction l using list_two_step with
  | h0 => intro i _ _; rfl
  | h1 a =>
    intro i hi hmem
    have ha : a ≠ '/' := fun h => hmem (by simp [h])
    simp [Utils.userPathPartLoop, hi, Utils.popTrailingSlash, insertSlashes, ha]
  | h2 a b rest ih =>
    intro i hi hmem
    rw [userPathPartLoop_pair a b rest i hi]
    have hrest : '/' ∉ rest := fun h => hmem (by simp [h])
    cases rest with
    | nil => simp [Utils.userPathPartLoop, Utils.popTrailingSlash, insertSlashes]
    | cons c rest' =>
      have hne := userPathPartLoop_ne_nil c rest' (i + 2)
      rw [popTrailingSlash_cons a _ (by simp), popTrailingSlash_cons b _ (by simp),
        popTrailingSlash_cons '/' _ hne, ih (i + 2) (by omega) hrest]
      simp [insertSlashes]

theorem filter_insertSlashes (l : List Char) :
    '/' ∉ l → (insertSlashes l).filter (fun c => c ≠ '/') = l := by
  induction l using list_two_step with
  | h0 => intro _; rfl
  | h1 a =>
    intro hmem
    have ha : a ≠ '/' := fun h => hmem (by simp [h])
    simp [insertSlashes, ha]
  | h2 a b rest ih =>
    intro hmem
    have ha : a ≠ '/' := fun h => hmem (by simp [h])
    have hb : b ≠ '/' := fun h => hmem (by simp [h])
    have hrest : '/' ∉ rest := fun h => hmem (by simp [h])
    cases rest with
    | nil => simp [insertSlashes, ha, hb]
    | cons c rest' =>
      have := ih hrest
      simp only [insertSlashes, List.filter_cons, ha, hb, ne_eq, not_false_eq_true,
        decide_True, if_true, not_true_eq_false, decide_False, if_false]
      simp only [ne_eq] at this
      rw [this]
      simp

theorem slash_not_mem_hexOfInt (userID : Int) : '/' ∉ Utils.hexOfInt userID := by
  intro hmem
  obtain ⟨d, hd, hc⟩ := mem_toDigits_hex _ _ hmem
  exact digitChar_ne_of_lt '/' (by decide) d hd hc.symm

/-! ## Lemmas on `Utils::replace` -/

theorem findAux_some (search : List Char) (l : List Char) :
    ∀ i p, Utils.findAux search l i = some p →
      ∃ a b, l = a ++ search ++ b ∧ p = i + a.length := by
  induction l with
  | nil =>
    intro i p h
    simp only [Utils.findAux] at h
    split at h
    · rename_i hpre
      have hs : search = [] := by
        cases search with
        | nil => rfl
        | cons x xs => simp [List.isPrefixOf] at hpre
      refine ⟨[], [], ?_, ?_⟩
      · simp [hs]
      · simpa using (Option.some.inj h).symm
    · exact Option.noConfusion h
  | cons c cs ih =>
    intro i p h
    simp only [Utils.findAux] at h
    split at h
    · rename_i hpre
      obtain ⟨b, hb⟩ := List.isPrefixOf_iff_prefix.mp hpre
      refine ⟨[], b, ?_, ?_⟩
      · simp [hb]
      · simpa using (Option.some.inj h).symm
    · obtain ⟨a, b, hl, hp⟩ := ih (i + 1) p h
      refine ⟨c :: a, b, ?_, ?_⟩
      · simp [hl]
      · simp only [List.length_cons]
        omega

theorem find_some (str search : List Char) (pos p : Nat)
    (h : Utils.find str search pos = some p) :
    ∃ a b, str = a ++ search ++ b ∧ a.length = p := by
  unfold Utils.find at h
  split at h
  · rename_i hpos
    obtain ⟨a, b, hl, hp⟩ := findAux_some search _ pos p h
    refine ⟨str.take pos ++ a, b, ?_, ?_⟩
    · rw [List.append_assoc, List.append_assoc, ← List.append_assoc a, ← hl,
        List.take_append_drop]
    · rw [List.length_append, List.length_take, Nat.min_eq_left hpos]
      omega
  · exact Option.noConfusion h

theorem replace_step_eq (a search repl b : List Char) :
    (a ++ search ++ b).take a.length ++ repl ++ (a ++ search ++ b).drop (a.length + search.length)
      = a ++ repl ++ b := by
  have h1 : (a ++ search ++ b).take a.length = a := by
    rw [List.append_assoc, List.take_left']
    rfl
  have h2 : (a ++ search ++ b).drop (a.length + search.length) = b := by
    rw [← List.length_append, List.drop_left']
    rfl
  rw [h1, h2]

theorem replaceLoop_isSome (c0 : Char) (search repl : List Char) (hs : c0 ∈ search)
    (hr : c0 ∉ repl) :
    ∀ fuel str pos, str.count c0 < fuel →
      (Utils.replaceLoop search repl fuel str pos).isSome = true := by
  intro fuel
  induction fuel with
  | zero => intro str pos h; omega
  | succ fuel ih =>
    intro str pos h
    simp only [Utils.replaceLoop]
    cases hf : Utils.find str search pos with
    | none => rfl
    | some p =>
      obtain ⟨a, b, hstr, hp⟩ := find_some str search pos p hf
      simp only
      subst hp
      rw [hstr, replace_step_eq]
      apply ih
      have hcs : 0 < search.count c0 := List.count_pos_iff.mpr hs
      have hcr : repl.count c0 = 0 := List.count_eq_zero.mpr hr
      rw [hstr] at h
      simp only [List.count_append] at h ⊢
      omega

theorem replace_isSome (c0 : Char) (str search repl : String) (hs : c0 ∈ search.data)
    (hr : c0 ∉ repl.data) :
    ∃ out, Utils.replace (str.length + 1) str search repl = some out := by
  have h := replaceLoop_isSome c0 search.data repl.data hs hr (str.length + 1) str.data 0
    (Nat.lt_succ_of_le (List.count_le_length _ _))
  obtain ⟨out, hout⟩ := Option.isSome_iff_exists.mp h
  exact ⟨String.mk out, by simp [Utils.replace, hout]⟩

theorem digitChar_ne_percent (d : Nat) (h : d < 16) : Nat.digitChar d ≠ '%' :=
  digitChar_ne_of_lt '%' (by decide) d h

theorem mem_userPathPartLoop (l : List Char) :
    ∀ i acc c, c ∈ Utils.userPathPartLoop l i acc → c ∈ acc ∨ c ∈ l ∨ c = '/' := by
  induction l with
  | nil => intro i acc c h; exact Or.inl h
  | cons x rest ih =>
    intro i acc c h
    simp only [Utils.userPathPartLoop] at h
    rcases ih _ _ c h with h1 | h1 | h1
    · split at h1
      · simp only [List.mem_append, List.mem_singleton] at h1
        rcases h1 with (h1 | h1) | h1
        · exact Or.inl h1
        · exact Or.inr (Or.inl (by simp [h1]))
        · exact Or.inr (Or.inr h1)
      · simp only [List.mem_append, List.mem_singleton] at h1
        rcases h1 with h1 | h1
        · exact Or.inl h1
        · exact Or.inr (Or.inl (by simp [h1]))
    · exact Or.inr (Or.inl (List.mem_cons_of_mem _ h1))
    · exact Or.inr (Or.inr h1)

theorem percent_not_mem_userPathPart (userID : Int) :
    '%' ∉ (Utils.userPathPart userID).data := by
  intro hmem
  have hmem' : '%' ∈ Utils.userPathPartLoop (Utils.hexOfInt userID) 0 [] := by
    have h : '%' ∈ Utils.popTrailingSlash (Utils.userPathPartLoop (Utils.hexOfInt userID) 0 []) :=
      hmem
    unfold Utils.popTrailingSlash at h
    split at h
    · exact List.mem_of_mem_dropLast h
    · exact h
  rcases mem_userPathPartLoop _ _ _ _ hmem' with h | h | h
  · simp at h
  · obtain ⟨d, hd, hc⟩ := mem_toDigits_hex _ _ h
    exact digitChar_ne_percent d hd hc.symm
  · exact absurd h (by decide)

theorem percent_not_mem_toString (num : Int) (places : Nat) :
    '%' ∉ (Utils.toString num places).data := by
  intro hmem
  have hdig : '%' ∉ Nat.toDigits 10 num.natAbs := by
    intro h
    obtain ⟨d, hd, hc⟩ := mem_toDigits_base 10 (by omega) _ _ h
    exact digitChar_ne_percent d (by omega) hc.symm
  simp only [Utils.toString, List.mem_append] at hmem
  rcases hmem with h | h
  · exact absurd (List.eq_of_mem_replicate h) (by decide)
  · split at h
    · rcases List.mem_cons.mp h with h | h
      · exact absurd h (by decide)
      · exact hdig h
    · exact hdig h

theorem dbDirPath_isSome (self : UpdateThread) (result : JobResult) :
    ∃ dir, UpdateThread.dbDirPath self result = some dir :=
  replace_isSome '%' _ "%u" _ (by decide) (percent_not_mem_userPathPart _)

theorem dbFileName_isSome (self : UpdateThread) (tmStruct : Tm) :
    ∃ name, UpdateThread.dbFileName self tmStruct = some name := by
  obtain ⟨s1, h1⟩ := replace_isSome '%' self.userDbFileNameScheme "%d"
    (Utils.toString tmStruct.tm_mday 2) (by decide) (percent_not_mem_toString _ _)
  obtain ⟨s2, h2⟩ := replace_isSome '%' s1 "%m"
    (Utils.toString tmStruct.tm_mon 2) (by decide) (percent_not_mem_toString _ _)
  exact ⟨s2, by simp [UpdateThread.dbFileName, h1, h2]⟩

theorem dbFilePath_isSome (self : UpdateThread) (tmStruct : Tm) (result : JobResult) :
    ∃ path, UpdateThread.dbFilePath self tmStruct result = some path := by
  obtain ⟨dir, hdir⟩ := dbDirPath_isSome self result
  obtain ⟨name, hname⟩ := dbFileName_isSome self tmStruct
  exact ⟨dir ++ "/" ++ name, by simp [UpdateThread.dbFilePath, hdir, hname]⟩

/-! ## Lemmas on `UpdateThread::storeResult` -/

theorem wantsResponse_iff (result : JobResult) :
    UpdateThread.wantsResponse result = true ↔
      result.saveResponses = true
        ∧ (result.responseHeaders ≠ "" ∨ result.responseBody ≠ "") := by
  simp [UpdateThread.wantsResponse]

theorem writeJobLog_snd_ok (created : Int) (fault : Option SQLiteStep) (userDB : SQLite_DB)
    (result : JobResult) (h : UpdateThread.logWriteRaises fault result = false) :
    (UpdateThread.writeJobLog created fault userDB result).2
      = Except.ok (castInt (insertId userDB.joblog)) := by
  simp only [UpdateThread.logWriteRaises, UpdateThread.jobLogInsertRaises, Bool.or_eq_false_iff,
    Bool.and_eq_false_iff, beq_eq_false_iff_ne, ne_eq] at h
  obtain ⟨⟨⟨h1, h2⟩, h3⟩, h4⟩ := h
  unfold UpdateThread.writeJobLog
  simp only [h1, h2, h3, if_false]
  split
  · rename_i hw
    rcases h4 with h4 | h4
    · simp [h4]
    · simp [hw] at h4
  · rfl

theorem writeJobLog_snd_error (created : Int) (fault : Option SQLiteStep) (userDB : SQLite_DB)
    (result : JobResult) (h : UpdateThread.logWriteRaises fault result = true) :
    ∃ e, (UpdateThread.writeJobLog created fault userDB result).2 = Except.error e := by
  simp only [UpdateThread.logWriteRaises, UpdateThread.jobLogInsertRaises, Bool.or_eq_true,
    Bool.and_eq_true, beq_iff_eq] at h
  unfold UpdateThread.writeJobLog
  rcases h with ((h | h) | h) | ⟨h, hw⟩
  · exact ⟨"open", by simp [h]⟩
  · exact ⟨"ddl", by simp [h]⟩
  · exact ⟨"joblog", by simp [h]⟩
  · exact ⟨"joblog_response", by simp [h, hw]⟩

theorem storeResult_eq (self : UpdateThread) (gmtime_r : Int → Option Tm)
    (now created : Int) (fault : Option SQLiteStep) (w : World) (result : JobResult)
    (tmStruct : Tm) (path : String)
    (htm : gmtime_r (result.datePlanned / 1000 : Nat) = some tmStruct)
    (hpath : UpdateThread.dbFilePath self tmStruct result = some path) :
    UpdateThread.storeResult self gmtime_r now created fault w result =
      some (Except.ok
        { db :=
            match (UpdateThread.writeJobLog created fault (w.userDBs path) result).2 with
            | Except.ok jobLogID => UpdateThread.applyResult self now w.db result jobLogID
            | Except.error _ => w.db
          userDBs := Function.update w.userDBs path
            (UpdateThread.writeJobLog created fault (w.userDBs path) result).1 }) := by
  unfold UpdateThread.storeResult
  rw [htm]
  simp only [hpath]
  rcases hw : UpdateThread.writeJobLog created fault (w.userDBs path) result with ⟨userDB, res⟩
  cases res <;> rfl

theorem storeResult_of_log_ok (self : UpdateThread) (gmtime_r : Int → Option Tm)
    (now created : Int) (fault : Option SQLiteStep) (w : World) (result : JobResult) (tmStruct : Tm)
    (htm : gmtime_r (result.datePlanned / 1000 : Nat) = some tmStruct)
    (hlog : UpdateThread.logWriteRaises fault result = false) :
    ∃ path, UpdateThread.dbFilePath self tmStruct result = some path
      ∧ UpdateThread.storeResult self gmtime_r now created fault w result =
        some (Except.ok
          { db := UpdateThread.applyResult self now w.db result
              (castInt (insertId (w.userDBs path).joblog))
            userDBs := Function.update w.userDBs path
              (UpdateThread.writeJobLog created fault (w.userDBs path) result).1 }) := by
  obtain ⟨path, hpath⟩ := dbFilePath_isSome self tmStruct result
  refine ⟨path, hpath, ?_⟩
  rw [storeResult_eq self gmtime_r now created fault w result tmStruct path htm hpath,
    writeJobLog_snd_ok created fault _ result hlog]

theorem map_if_jobid_of_ne (rows : List JobRow) (jobID : Int) (f : JobRow → JobRow)
    (h : ∀ r ∈ rows, r.jobid ≠ jobID) :
    rows.map (fun row => if row.jobid = jobID then f row else row) = rows := by
  induction rows with
  | nil => rfl
  | cons r rest ih =>
    have hr : r.jobid ≠ jobID := h r (List.mem_cons_self _ _)
    have hrest : ∀ x ∈ rest, x.jobid ≠ jobID := fun x hx => h x (List.mem_cons_of_mem _ hx)
    simp only [List.map_cons, if_neg hr, ih hrest]

theorem filter_jobid_of_ne (rows : List JobRow) (jobID : Int)
    (h : ∀ r ∈ rows, r.jobid ≠ jobID) :
    rows.filter (fun row => row.jobid = jobID) = [] := by
  rw [List.filter_eq_nil_iff]
  intro r hr
  simpa using h r hr

theorem map_if_jobid_split (pre post : List JobRow) (J : JobRow) (jobID : Int)
    (f : JobRow → JobRow) (hJ : J.jobid = jobID)
    (hpre : ∀ r ∈ pre, r.jobid ≠ jobID) (hpost : ∀ r ∈ post, r.jobid ≠ jobID) :
    (pre ++ J :: post).map (fun row => if row.jobid = jobID then f row else row)
      = pre ++ f J :: post := by
  rw [List.map_append, List.map_cons, map_if_jobid_of_ne pre jobID f hpre,
    map_if_jobid_of_ne post jobID f hpost, if_pos hJ]

theorem selectFailCounter_split (db : MySQL_DB) (pre post : List JobRow) (J : JobRow)
    (jobID : Int) (hjob : db.job = pre ++ J :: post) (hJ : J.jobid = jobID)
    (hpre : ∀ r ∈ pre, r.jobid ≠ jobID) (hpost : ∀ r ∈ post, r.jobid ≠ jobID) :
    UpdateThread.selectFailCounter db jobID = J.fail_counter := by
  unfold UpdateThread.selectFailCounter
  rw [hjob, List.filter_append, List.filter_cons, filter_jobid_of_ne pre jobID hpre,
    filter_jobid_of_ne post jobID hpost]
  simp [hJ]

theorem updatedRow_jobid (result : JobResult) (row : JobRow) :
    (UpdateThread.updatedRow result row).jobid = row.jobid := rfl

theorem updateJobQuery_split (db : MySQL_DB) (result : JobResult) (pre post : List JobRow)
    (J : JobRow) (hjob : db.job = pre ++ J :: post) (hJ : J.jobid = result.jobID)
    (hpre : ∀ r ∈ pre, r.jobid ≠ result.jobID) (hpost : ∀ r ∈ post, r.jobid ≠ result.jobID) :
    (UpdateThread.updateJobQuery db result).job
      = pre ++ UpdateThread.updatedRow result J :: post := by
  show db.job.map _ = _
  rw [hjob]
  exact map_if_jobid_split pre post J result.jobID _ hJ hpre hpost

theorem observedFailCounter_split (db : MySQL_DB) (result : JobResult)
    (pre post : List JobRow) (J : JobRow) (hjob : db.job = pre ++ J :: post)
    (hJ : J.jobid = result.jobID)
    (hpre : ∀ r ∈ pre, r.jobid ≠ result.jobID) (hpost : ∀ r ∈ post, r.jobid ≠ result.jobID) :
    UpdateThread.observedFailCounter db result
      = (UpdateThread.updatedRow result J).fail_counter :=
  selectFailCounter_split _ pre post _ result.jobID
    (updateJobQuery_split db result pre post J hjob hJ hpre hpost) hJ hpre hpost

theorem applyResult_notification (self : UpdateThread) (now : Int) (db : MySQL_DB)
    (result : JobResult) (jobLogID : Int) :
    (UpdateThread.applyResult self now db result jobLogID).notification =
      db.notification ++
        match UpdateThread.notificationDecision self result
            (UpdateThread.observedFailCounter db result) with
        | some t => [{ jobid := result.jobID, joblogid := jobLogID, date := castInt now, type := t }]
        | none => [] := by
  unfold UpdateThread.applyResult UpdateThread.observedFailCounter
  simp only
  cases UpdateThread.notificationDecision self result
      (UpdateThread.selectFailCounter (UpdateThread.updateJobQuery db result) result.jobID) with
  | none =>
    simp only [List.append_nil]
    split <;> rfl
  | some t =>
    simp only
    split <;> rfl

theorem applyResult_job (self : UpdateThread) (now : Int) (db : MySQL_DB)
    (result : JobResult) (jobLogID : Int) :
    (UpdateThread.applyResult self now db result jobLogID).job =
      if UpdateThread.observedFailCounter db result > self.maxFailures then
        (UpdateThread.disableJobQuery (UpdateThread.updateJobQuery db result) result.jobID).job
      else (UpdateThread.updateJobQuery db result).job := by
  unfold UpdateThread.applyResult UpdateThread.observedFailCounter
  simp only
  cases UpdateThread.notificationDecision self result
      (UpdateThread.selectFailCounter (UpdateThread.updateJobQuery db result) result.jobID) with
  | none => simp only; split <;> rfl
  | some t => simp only; split <;> rfl

theorem applyResult_job_split (self : UpdateThread) (now : Int) (db : MySQL_DB)
    (result : JobResult) (jobLogID : Int) (pre post : List JobRow) (J : JobRow)
    (hjob : db.job = pre ++ J :: post) (hJ : J.jobid = result.jobID)
    (hpre : ∀ r ∈ pre, r.jobid ≠ result.jobID) (hpost : ∀ r ∈ post, r.jobid ≠ result.jobID) :
    (UpdateThread.applyResult self now db result jobLogID).job =
      pre ++ (if (UpdateThread.updatedRow result J).fail_counter > self.maxFailures then
          UpdateThread.disabledRow (UpdateThread.updatedRow result J)
        else UpdateThread.updatedRow result J) :: post := by
  have hupd := updateJobQuery_split db result pre post J hjob hJ hpre hpost
  rw [applyResult_job, observedFailCounter_split db result pre post J hjob hJ hpre hpost]
  split
  · show (UpdateThread.updateJobQuery db result).job.map _ = _
    rw [hupd]
    exact map_if_jobid_split pre post _ result.jobID _ hJ hpre hpost
  · exact hupd

theorem writeJobLog_joblog (created : Int) (fault : Option SQLiteStep) (userDB : SQLite_DB)
    (result : JobResult) (h : UpdateThread.jobLogInsertRaises fault = false) :
    (UpdateThread.writeJobLog created fault userDB result).1.joblog =
      userDB.joblog ++ [UpdateThread.jobLogRow created (insertId userDB.joblog) result] := by
  simp only [UpdateThread.jobLogInsertRaises, Bool.or_eq_false_iff, beq_eq_false_iff_ne,
    ne_eq] at h
  obtain ⟨⟨h1, h2⟩, h3⟩ := h
  unfold UpdateThread.writeJobLog
  simp only [h1, h2, h3, if_false]
  split
  · split <;> rfl
  · rfl

theorem writeJobLog_response (created : Int) (fault : Option SQLiteStep) (userDB : SQLite_DB)
    (result : JobResult) (h : UpdateThread.jobLogInsertRaises fault = false) :
    (UpdateThread.writeJobLog created fault userDB result).1.joblog_response =
      if UpdateThread.wantsResponse result = true
          ∧ fault ≠ some SQLiteStep.insertJobLogResponse then
        userDB.joblog_response ++
          [UpdateThread.jobLogResponseRow created (castInt (insertId userDB.joblog)) result]
      else userDB.joblog_response := by
  simp only [UpdateThread.jobLogInsertRaises, Bool.or_eq_false_iff, beq_eq_false_iff_ne,
    ne_eq] at h
  obtain ⟨⟨h1, h2⟩, h3⟩ := h
  unfold UpdateThread.writeJobLog
  simp only [h1, h2, h3, if_false]
  by_cases hw : UpdateThread.wantsResponse result = true
  · by_cases hf : fault = some SQLiteStep.insertJobLogResponse
    · simp [hw, hf]
    · simp [hw, hf]
  · simp [hw]

theorem foldl_last_eq_zero (rows : List JobRow) (h : ∀ r ∈ rows, r.fail_counter = 0) :
    ∀ a : Int, a = 0 → rows.foldl (fun _ row => row.fail_counter) a = 0 := by
  induction rows with
  | nil => intro a ha; exact ha
  | cons r rest ih =>
    intro a _
    exact ih (fun x hx => h x (List.mem_cons_of_mem _ hx)) _ (h r (List.mem_cons_self _ _))

theorem updateJobQuery_reset (db : MySQL_DB) (result : JobResult)
    (hs : result.status = JobStatus_t.JOBSTATUS_OK
      ∨ result.status = JobStatus_t.JOBSTATUS_FAILED_TIMEOUT) :
    ∀ row ∈ (UpdateThread.updateJobQuery db result).job,
      row.jobid = result.jobID → row.fail_counter = 0 := by
  intro row hrow hid
  obtain ⟨r0, _, hr0⟩ := List.mem_map.mp hrow
  by_cases h0 : r0.jobid = result.jobID
  · rw [if_pos h0] at hr0
    rw [← hr0]
    simp [UpdateThread.updatedRow, hs]
  · rw [if_neg h0] at hr0
    rw [hr0] at h0
    exact absurd hid h0

theorem observedFailCounter_reset (db : MySQL_DB) (result : JobResult)
    (hs : result.status = JobStatus_t.JOBSTATUS_OK
      ∨ result.status = JobStatus_t.JOBSTATUS_FAILED_TIMEOUT) :
    UpdateThread.observedFailCounter db result = 0 := by
  unfold UpdateThread.observedFailCounter UpdateThread.selectFailCounter
  apply foldl_last_eq_zero _ _ 0 rfl
  intro r hr
  obtain ⟨hmem, hid⟩ := List.mem_filter.mp hr
  exact updateJobQuery_reset db result hs r hmem (by simpa using hid)

theorem updatedRow_fail_counter_failed (result : JobResult) (row : JobRow)
    (h : result.status = JobStatus_t.JOBSTATUS_FAILED_OTHER) :
    (UpdateThread.updatedRow result row).fail_counter = row.fail_counter + 1 := by
  simp [UpdateThread.updatedRow, h]

theorem storeResult_step (self : UpdateThread) (gmtime_r : Int → Option Tm)
    (now created : Int) (fault : Option SQLiteStep) (w : World) (result : JobResult) (tmStruct : Tm)
    (pre post : List JobRow) (J : JobRow)
    (htm : gmtime_r (result.datePlanned / 1000 : Nat) = some tmStruct)
    (hlog : UpdateThread.logWriteRaises fault result = false)
    (hjob : w.db.job = pre ++ J :: post) (hJ : J.jobid = result.jobID)
    (hpre : ∀ r ∈ pre, r.jobid ≠ result.jobID) (hpost : ∀ r ∈ post, r.jobid ≠ result.jobID) :
    ∃ w' path, UpdateThread.dbFilePath self tmStruct result = some path
      ∧ UpdateThread.storeResult self gmtime_r now created fault w result = some (Except.ok w')
      ∧ UpdateThread.observedFailCounter w.db result
          = (UpdateThread.updatedRow result J).fail_counter
      ∧ w'.db.job =
          pre ++ (if (UpdateThread.updatedRow result J).fail_counter > self.maxFailures then
              UpdateThread.disabledRow (UpdateThread.updatedRow result J)
            else UpdateThread.updatedRow result J) :: post
      ∧ w'.db.notification =
          w.db.notification ++
            match UpdateThread.notificationDecision self result
                (UpdateThread.updatedRow result J).fail_counter with
            | some t =>
              [{ jobid := result.jobID, joblogid := castInt (insertId (w.userDBs path).joblog),
                 date := castInt now, type := t }]
            | none => [] := by
  obtain ⟨path, hpath, hstore⟩ :=
    storeResult_of_log_ok self gmtime_r now created fault w result tmStruct htm hlog
  have hobs := observedFailCounter_split w.db result pre post J hjob hJ hpre hpost
  refine ⟨_, path, hpath, hstore, hobs, ?_, ?_⟩
  · exact applyResult_job_split self now w.db result _ pre post J hjob hJ hpre hpost
  · show (UpdateThread.applyResult self now w.db result _).notification = _
    rw [applyResult_notification, hobs]

/-! ## Lemmas on the query of `processJobsForTimeZone` -/

theorem mem_leftJoin {β γ : Type} (rows : List β) (k : Option β → List γ) (y : γ) :
    y ∈ App.leftJoin rows k ↔ (rows = [] ∧ y ∈ k none) ∨ ∃ b ∈ rows, y ∈ k (some b) := by
  cases rows with
  | nil => simp [App.leftJoin]
  | cons b bs => simp [App.leftJoin, List.mem_flatMap]

theorem exists_leftJoin_mem {β γ : Type} (rows : List β) :
    ∃ o : Option β, ∀ (k : Option β → List γ) (y : γ), y ∈ k o → y ∈ App.leftJoin rows k := by
  cases rows with
  | nil => exact ⟨none, fun k y hy => by simpa [App.leftJoin] using hy⟩
  | cons b bs =>
    exact ⟨some b, fun k y hy =>
      (mem_leftJoin _ _ _).mpr (Or.inr ⟨b, List.mem_cons_self _ _, hy⟩)⟩

theorem mem_jobJoin_elim (db : MySQL_DB) (r : App.JoinRow) (h : r ∈ App.jobJoin db) :
    r.job ∈ db.job
    ∧ (r.hour ∈ db.job_hours ∧ r.hour.jobid = r.job.jobid)
    ∧ (r.mday ∈ db.job_mdays ∧ r.mday.jobid = r.job.jobid)
    ∧ (r.wday ∈ db.job_wdays ∧ r.wday.jobid = r.job.jobid)
    ∧ (r.minute ∈ db.job_minutes ∧ r.minute.jobid = r.job.jobid)
    ∧ (r.month ∈ db.job_months ∧ r.month.jobid = r.job.jobid)
    ∧ (r.user ∈ db.user ∧ r.job.userid = r.user.userid) := by
  simp only [App.jobJoin, List.mem_flatMap, List.mem_filter, decide_eq_true_eq] at h
  obtain ⟨job, hjob, hour, hhour, mday, hmday, wday, hwday, minute, hminute, month, hmonth,
    user, huser, hrest⟩ := h
  have hr : r.job = job ∧ r.hour = hour ∧ r.mday = mday ∧ r.wday = wday ∧ r.minute = minute
      ∧ r.month = month ∧ r.user = user := by
    rcases (mem_leftJoin _ _ _).mp hrest with ⟨_, h1⟩ | ⟨hd, _, h1⟩ <;>
      rcases (mem_leftJoin _ _ _).mp h1 with ⟨_, h2⟩ | ⟨bd, _, h2⟩ <;>
        (simp only [List.mem_singleton] at h2; subst h2; exact ⟨rfl, rfl, rfl, rfl, rfl, rfl, rfl⟩)
  obtain ⟨e1, e2, e3, e4, e5, e6, e7⟩ := hr
  subst e1 e2 e3 e4 e5 e6 e7
  exact ⟨hjob, hhour, hmday, hwday, hminute, hmonth, huser⟩

theorem mem_jobJoin_intro (db : MySQL_DB) (job : JobRow) (hour mday wday minute month : ScheduleRow)
    (user : UserRow) (hjob : job ∈ db.job)
    (hhour : hour ∈ db.job_hours ∧ hour.jobid = job.jobid)
    (hmday : mday ∈ db.job_mdays ∧ mday.jobid = job.jobid)
    (hwday : wday ∈ db.job_wdays ∧ wday.jobid = job.jobid)
    (hminute : minute ∈ db.job_minutes ∧ minute.jobid = job.jobid)
    (hmonth : month ∈ db.job_months ∧ month.jobid = job.jobid)
    (huser : user ∈ db.user ∧ job.userid = user.userid) :
    ∃ header body,
      ({ job := job, hour := hour, mday := mday, wday := wday, minute := minute,
         month := month, user := user, header := header, body := body } : App.JoinRow)
        ∈ App.jobJoin db := by
  simp only [App.jobJoin, List.mem_flatMap, List.mem_filter, decide_eq_true_eq]
  obtain ⟨header, hH⟩ := @exists_leftJoin_mem _ App.JoinRow
    (db.job_header.filter fun h => h.jobid = job.jobid)
  obtain ⟨body, hB⟩ := @exists_leftJoin_mem _ App.JoinRow
    (db.job_body.filter fun b => b.jobid = job.jobid)
  exact ⟨header, body, job, hjob, hour, hhour, mday, hmday, wday, hwday, minute, hminute, month,
    hmonth, user, huser, hH _ _ (hB _ _ (List.mem_singleton_self _))⟩

theorem map_filterMap_of_key {α β : Type} (f : β → α) (g : α → Option β) (ids : List α)
    (h : ∀ a ∈ ids, ∃ y, g a = some y ∧ f y = a) :
    (ids.filterMap g).map f = ids := by
  induction ids with
  | nil => rfl
  | cons a rest ih =>
    obtain ⟨y, hy, hfy⟩ := h a (List.mem_cons_self _ _)
    rw [List.filterMap_cons, hy]
    simp only [List.map_cons, hfy]
    rw [ih (fun x hx => h x (List.mem_cons_of_mem _ hx))]

theorem groupByJobId_jobids (rows : List App.JoinRow) :
    (App.groupByJobId rows).map (fun q => q.job.jobid)
      = (rows.map fun r => r.job.jobid).dedup := by
  unfold App.groupByJobId
  apply map_filterMap_of_key
  intro jobid hid
  rw [List.mem_dedup, List.mem_map] at hid
  obtain ⟨r, hr, hrid⟩ := hid
  have hmem : r ∈ rows.filter (fun r => r.job.jobid = jobid) := by
    rw [List.mem_filter]
    exact ⟨hr, by simpa using hrid⟩
  cases hf : rows.filter (fun r => r.job.jobid = jobid) with
  | nil => rw [hf] at hmem; exact absurd hmem (List.not_mem_nil _)
  | cons first rest =>
    have hfirst : first ∈ rows.filter (fun r => r.job.jobid = jobid) := by
      rw [hf]
      exact List.mem_cons_self _ _
    have hfid : first.job.jobid = jobid := by
      simpa using (List.mem_filter.mp hfirst).2
    exact ⟨_, rfl, hfid⟩

theorem processJobsForTimeZone_jobIDs (db : MySQL_DB)
    (hour minute month mday wday year timestamp : Int) (timeZone : String) :
    List.Perm
      ((App.processJobsForTimeZone db hour minute month mday wday year timestamp timeZone).map
        fun req => req.jobID)
      ((((App.jobJoin db).filter (App.jobWhere hour minute mday wday month timeZone)).map
        fun r => r.job.jobid).dedup) := by
  have hsel : (App.processJobsForTimeZone db hour minute month mday wday year timestamp
      timeZone).map (fun req => req.jobID)
      = (App.jobQuery db hour minute mday wday month timeZone).map fun q => q.job.jobid := by
    unfold App.processJobsForTimeZone
    simp only
    split
    · rw [List.map_map]
      rfl
    · rename_i hlen
      have hnil : App.jobQuery db hour minute mday wday month timeZone = [] :=
        List.length_eq_zero.mp (by omega)
      rw [hnil]
      rfl
  rw [hsel, ← groupByJobId_jobids]
  exact (List.perm_insertionSort _ _).map _

theorem mem_scheduleSet (table : List ScheduleRow) (jobid v : Int) :
    v ∈ scheduleSet table jobid ↔ ∃ r ∈ table, r.jobid = jobid ∧ r.value = v := by
  simp [scheduleSet, List.mem_map, List.mem_filter, and_assoc]

theorem schedule_match_iff (table : List ScheduleRow) (jobid x : Int) :
    (∃ r, (r ∈ table ∧ r.jobid = jobid) ∧ (r.value = -1 ∨ r.value = x))
      ↔ (-1 ∈ scheduleSet table jobid ∨ x ∈ scheduleSet table jobid) := by
  rw [mem_scheduleSet, mem_scheduleSet]
  constructor
  · rintro ⟨r, ⟨hr, hid⟩, hv | hv⟩
    · exact Or.inl ⟨r, hr, hid, hv⟩
    · exact Or.inr ⟨r, hr, hid, hv⟩
  · rintro (⟨r, hr, hid, hv⟩ | ⟨r, hr, hid, hv⟩)
    · exact ⟨r, ⟨hr, hid⟩, Or.inl hv⟩
    · exact ⟨r, ⟨hr, hid⟩, Or.inr hv⟩

/-! ## Lemmas on the UTC clock -/

theorem yoe_bounds (x : Int) (h0 : 0 ≤ x) (h1 : x ≤ 146096) :
    0 ≤ (x - x / 1460 + x / 36524 - x / 146096) / 365
    ∧ (x - x / 1460 + x / 36524 - x / 146096) / 365 ≤ 399 := by
  have hb : x / 36524 = 0 ∨ x / 36524 = 1 ∨ x / 36524 = 2 ∨ x / 36524 = 3 ∨ x / 36524 = 4 := by
    omega
  rcases hb with h | h | h | h | h <;> omega

theorem doy_bounds (x : Int) (h0 : 0 ≤ x) (h1 : x ≤ 146096) :
    0 ≤ x - (365 * ((x - x / 1460 + x / 36524 - x / 146096) / 365)
        + (x - x / 1460 + x / 36524 - x / 146096) / 365 / 4
        - (x - x / 1460 + x / 36524 - x / 146096) / 365 / 100)
    ∧ x - (365 * ((x - x / 1460 + x / 36524 - x / 146096) / 365)
        + (x - x / 1460 + x / 36524 - x / 146096) / 365 / 4
        - (x - x / 1460 + x / 36524 - x / 146096) / 365 / 100) ≤ 365 := by
  generalize hy : (x - x / 1460 + x / 36524 - x / 146096) / 365 = yoe
  have hb : x / 36524 = 0 ∨ x / 36524 = 1 ∨ x / 36524 = 2 ∨ x / 36524 = 3 ∨ x / 36524 = 4 := by
    omega
  have hf : x / 146096 = 0 ∨ x / 146096 = 1 := by omega
  rcases hb with h | h | h | h | h <;> rcases hf with h' | h' <;> rw [h, h'] at hy
  all_goals first
    | omega
    | (have hq : yoe ≤ 4 * (x / 1460) + 3 := by omega
       have hq2 : 4 * (x / 1460) - 4 ≤ yoe := by omega
       have hd : yoe / 100 = 0 ∨ yoe / 100 = 1 ∨ yoe / 100 = 2 ∨ yoe / 100 = 3 := by omega
       rcases hd with h'' | h'' | h'' | h'' <;> omega)

theorem daysFromCivil_civilFromDays (z : Int) :
    daysFromCivil (civilFromDays z).1 (civilFromDays z).2.1 (civilFromDays z).2.2 = z := by
  have hx0 : 0 ≤ z + 719468 - (z + 719468) / 146097 * 146097 := by omega
  have hx1 : z + 719468 - (z + 719468) / 146097 * 146097 ≤ 146096 := by omega
  have hy := yoe_bounds _ hx0 hx1
  have hd := doy_bounds _ hx0 hx1
  simp only [civilFromDays, daysFromCivil]
  generalize hx : z + 719468 - (z + 719468) / 146097 * 146097 = x at hx0 hx1 hy hd ⊢
  generalize (x - x / 1460 + x / 36524 - x / 146096) / 365 = yoe at hy hd ⊢
  generalize (z + 719468) / 146097 = era at hx ⊢
  generalize hdoy : x - (365 * yoe + yoe / 4 - yoe / 100) = doy at hd ⊢
  have hera : (yoe + era * 400) / 400 = era := by omega
  split_ifs <;>
    simp only [add_sub_cancel_right, sub_add_cancel, hera] <;> omega

theorem civilFromDays_injective (z z' : Int) (h : civilFromDays z = civilFromDays z') :
    z = z' := by
  rw [← daysFromCivil_civilFromDays z, ← daysFromCivil_civilFromDays z', h]

theorem utcTime_sec_nonneg (t : Int) : 0 ≤ (utcTime t).tm_sec :=
  Int.emod_nonneg t (by decide)

theorem utcTime_minute_interval (t t' : Int) (h1 : t - (utcTime t).tm_sec ≤ t') (h2 : t' ≤ t) :
    sameMinute (utcTime t') (utcTime t) := by
  have hs : (utcTime t).tm_sec = t % 60 := rfl
  rw [hs] at h1
  have hq : t' / 60 = t / 60 := by omega
  unfold utcTime
  rw [hq]
  exact ⟨rfl, rfl, rfl, rfl, rfl⟩

theorem utcTime_minute_injective (t t' : Int) (h : sameMinute (utcTime t) (utcTime t')) :
    t - (utcTime t).tm_sec = t' - (utcTime t').tm_sec := by
  obtain ⟨hmin, hhour, hmday, hmon, hyear⟩ := h
  simp only [utcTime, tmOfMinute] at hmin hhour hmday hmon hyear
  have hciv : civilFromDays (t / 60 / 1440) = civilFromDays (t' / 60 / 1440) := by
    apply Prod.ext
    · omega
    · apply Prod.ext
      · show (civilFromDays (t / 60 / 1440)).2.1 = (civilFromDays (t' / 60 / 1440)).2.1
        omega
      · exact hmday
  have hday := civilFromDays_injective _ _ hciv
  show t - t % 60 = t' - t' % 60
  omega

/-! ## Lemmas on the tick loop -/

theorem not_timeAdvanced_of_sameMinute (t last : Tm) (h : sameMinute last t) :
    ¬ App.timeAdvanced t last := by
  obtain ⟨h1, h2, h3, h4, h5⟩ := h
  unfold App.timeAdvanced
  omega

theorem runStep_cases (localtime : Int → Tm) (st : App.RunState) (c : Int)
    (hoff : st.jitterCorrectionOffset = 1) :
    ((App.runStep localtime st c).1 = st ∧ (App.runStep localtime st c).2 = none
        ∧ ¬ App.timeAdvanced (localtime (c + 1)) st.lastTime)
    ∨ ((App.runStep localtime st c).1.lastTime = localtime (c + 1)
        ∧ (App.runStep localtime st c).1.jitterCorrectionOffset = 1
        ∧ App.timeAdvanced (localtime (c + 1)) st.lastTime
        ∧ ((App.runStep localtime st c).2 = none
          ∨ (App.runStep localtime st c).2 =
            some { forTime := c + 1, plannedTime := c + 1 - (localtime (c + 1)).tm_sec })) := by
  unfold App.runStep
  simp only [hoff]
  by_cases hadv : App.timeAdvanced (localtime (c + 1)) st.lastTime
  · right
    rw [if_pos hadv]
    split
    · exact ⟨rfl, rfl, hadv, Or.inr rfl⟩
    · exact ⟨rfl, rfl, hadv, Or.inl rfl⟩
  · left
    rw [if_neg hadv]
    exact ⟨rfl, rfl, hadv⟩

theorem planned_gt_of_advanced (localtime : Int → Tm)
    (hmin : ∀ t t', t - (localtime t).tm_sec ≤ t' → t' ≤ t →
      sameMinute (localtime t') (localtime t))
    (a cur : Int) (ha : a ≤ cur) (hadv : App.timeAdvanced (localtime cur) (localtime a)) :
    a < cur - (localtime cur).tm_sec := by
  by_contra hle
  exact not_timeAdvanced_of_sameMinute _ _ (hmin cur a (by omega) ha) hadv

theorem runLoop_call_form (localtime : Int → Tm) :
    ∀ clocks st, st.jitterCorrectionOffset = 1 →
      ∀ s call, (s, some call) ∈ App.runLoop localtime st clocks →
        call.forTime = s + 1 ∧ call.plannedTime = s + 1 - (localtime (s + 1)).tm_sec := by
  intro clocks
  induction clocks with
  | nil => intro st _ s call h; simp [App.runLoop] at h
  | cons c rest ih =>
    intro st hoff s call h
    simp only [App.runLoop, List.mem_cons] at h
    rcases runStep_cases localtime st c hoff with ⟨hst, hnone, _⟩ | ⟨_, hoff', _, hcall⟩
    · rcases h with h | h
      · rw [hnone] at h
        simp at h
      · rw [hst] at h
        exact ih st hoff s call h
    · rcases h with h | h
      · obtain ⟨hs, hc⟩ := Prod.mk.inj h
        rcases hcall with hcall | hcall
        · rw [hcall] at hc
          exact Option.noConfusion hc
        · rw [hcall] at hc
          have := Option.some.inj hc
          subst this
          subst hs
          exact ⟨rfl, rfl⟩
      · exact ih _ hoff' s call h

theorem runLoop_planned_gt (localtime : Int → Tm)
    (hmin : ∀ t t', t - (localtime t).tm_sec ≤ t' → t' ≤ t →
      sameMinute (localtime t') (localtime t)) :
    ∀ clocks st a, st.jitterCorrectionOffset = 1 → st.lastTime = localtime a →
      clocks.Sorted (· ≤ ·) → (∀ c ∈ clocks, a ≤ c + 1) →
      ∀ s call, (s, some call) ∈ App.runLoop localtime st clocks → a < call.plannedTime := by
  intro clocks
  induction clocks with
  | nil => intro st a _ _ _ _ s call h; simp [App.runLoop] at h
  | cons c rest ih =>
    intro st a hoff hlast hsorted hge s call h
    simp only [App.runLoop, List.mem_cons] at h
    have hsorted' := List.sorted_cons.mp hsorted
    have hac : a ≤ c + 1 := hge c (List.mem_cons_self _ _)
    rcases runStep_cases localtime st c hoff with ⟨hst, hnone, _⟩ | ⟨hlast', hoff', hadv, hcall⟩
    · rcases h with h | h
      · rw [hnone] at h
        simp at h
      · rw [hst] at h
        exact ih st a hoff hlast hsorted'.2 (fun x hx => hge x (List.mem_cons_of_mem _ hx)) s
          call h
    · rw [hlast] at hadv
      have hgt := planned_gt_of_advanced localtime hmin a (c + 1) hac hadv
      rcases h with h | h
      · obtain ⟨_, hc⟩ := Prod.mk.inj h
        rcases hcall with hcall | hcall
        · rw [hcall] at hc
          exact Option.noConfusion hc
        · rw [hcall] at hc
          have := Option.some.inj hc
          subst this
          exact hgt
      · have := ih _ (c + 1) hoff' hlast' hsorted'.2
          (fun x hx => by have := hsorted'.1 x hx; omega) s call h
        omega

theorem runLoop_after_call (localtime : Int → Tm)
    (hsec : ∀ t, 0 ≤ (localtime t).tm_sec)
    (hmin : ∀ t t', t - (localtime t).tm_sec ≤ t' → t' ≤ t →
      sameMinute (localtime t') (localtime t))
    (c : Int) (rest : List Int) (st : App.RunState) (hoff : st.jitterCorrectionOffset = 1)
    (hsorted : (c :: rest).Sorted (· ≤ ·)) (cx : App.ProcessJobsCall)
    (hx : (App.runStep localtime st c).2 = some cx) :
    cx.plannedTime ≤ c + 1
    ∧ ∀ s call, (s, some call) ∈ App.runLoop localtime (App.runStep localtime st c).1 rest →
        c + 1 < call.plannedTime := by
  have hsorted' := List.sorted_cons.mp hsorted
  rcases runStep_cases localtime st c hoff with ⟨_, hnone, _⟩ | ⟨hlast', hoff', _, hcall⟩
  · rw [hnone] at hx
    exact Option.noConfusion hx
  · constructor
    · rcases hcall with hcall | hcall
      · rw [hcall] at hx
        exact Option.noConfusion hx
      · rw [hcall] at hx
        have := Option.some.inj hx
        subst this
        have := hsec (c + 1)
        show c + 1 - (localtime (c + 1)).tm_sec ≤ c + 1
        omega
    · exact runLoop_planned_gt localtime hmin rest _ (c + 1) hoff' hlast' hsorted'.2
        (fun x hx => by have := hsorted'.1 x hx; omega)

theorem runStep_offset (localtime : Int → Tm) (st : App.RunState) (c : Int)
    (hoff : st.jitterCorrectionOffset = 1) :
    (App.runStep localtime st c).1.jitterCorrectionOffset = 1 := by
  rcases runStep_cases localtime st c hoff with ⟨hst, _, _⟩ | ⟨_, hoff', _, _⟩
  · rw [hst]
    exact hoff
  · exact hoff'

theorem runLoop_planned_increasing (localtime : Int → Tm)
    (hsec : ∀ t, 0 ≤ (localtime t).tm_sec)
    (hmin : ∀ t t', t - (localtime t).tm_sec ≤ t' → t' ≤ t →
      sameMinute (localtime t') (localtime t)) :
    ∀ clocks st, st.jitterCorrectionOffset = 1 → clocks.Sorted (· ≤ ·) →
      (App.runLoop localtime st clocks).Pairwise fun x y =>
        ∀ cx ∈ x.2, ∀ cy ∈ y.2, cx.plannedTime < cy.plannedTime := by
  intro clocks
  induction clocks with
  | nil => intro st _ _; exact List.Pairwise.nil
  | cons c rest ih =>
    intro st hoff hsorted
    simp only [App.runLoop]
    refine List.Pairwise.cons ?_
      (ih _ (runStep_offset localtime st c hoff) (List.sorted_cons.mp hsorted).2)
    rintro ⟨s, o⟩ hy cx hcx cy hcy
    have hcx' : (App.runStep localtime st c).2 = some cx := hcx
    have hcy' : o = some cy := hcy
    obtain ⟨h1, h2⟩ := runLoop_after_call localtime hsec hmin c rest st hoff hsorted cx hcx'
    have := h2 s cy (by rw [← hcy']; exact hy)
    omega

theorem runLoop_no_refire (localtime : Int → Tm)
    (hsec : ∀ t, 0 ≤ (localtime t).tm_sec)
    (hmin : ∀ t t', t - (localtime t).tm_sec ≤ t' → t' ≤ t →
      sameMinute (localtime t') (localtime t))
    (hinj : ∀ t t', sameMinute (localtime t) (localtime t') →
      t - (localtime t).tm_sec = t' - (localtime t').tm_sec) :
    ∀ clocks st, st.jitterCorrectionOffset = 1 → clocks.Sorted (· ≤ ·) →
      (App.runLoop localtime st clocks).Pairwise fun x y =>
        x.2.isSome = true → sameMinute (localtime (y.1 + 1)) (localtime (x.1 + 1)) →
          y.2 = none := by
  intro clocks
  induction clocks with
  | nil => intro st _ _; exact List.Pairwise.nil
  | cons c rest ih =>
    intro st hoff hsorted
    simp only [App.runLoop]
    refine List.Pairwise.cons ?_
      (ih _ (runStep_offset localtime st c hoff) (List.sorted_cons.mp hsorted).2)
    rintro ⟨s, o⟩ hy hsome hsame
    obtain ⟨cx, hcx⟩ := Option.isSome_iff_exists.mp hsome
    obtain ⟨_, h2⟩ := runLoop_after_call localtime hsec hmin c rest st hoff hsorted cx hcx
    cases o with
    | none => rfl
    | some cy =>
      have hform := runLoop_call_form localtime rest _ (runStep_offset localtime st c hoff) s
        cy hy
      have hgt := h2 s cy hy
      have heq := hinj _ _ hsame
      have := hsec (c + 1)
      simp only at heq
      omega

theorem count_le_one_of_pairwise_lt (l : List Int) (h : l.Pairwise (· < ·)) (M : Int) :
    l.count M ≤ 1 :=
  List.nodup_iff_count_le_one.mp (h.imp (fun hab => ne_of_lt hab)) M

/-! ## C1: `Utils::userPathPart` -/

theorem hexOfInt_of_nonneg (userID : Int) (h0 : 0 ≤ userID) (h1 : userID < 2147483648) :
    Utils.hexOfInt userID = Nat.toDigits 16 userID.toNat := by
  unfold Utils.hexOfInt
  rw [Int.emod_eq_of_lt h0 (by omega)]

/-- C1: for a non-negative `int` user id, `Utils::userPathPart` returns the
lowercase hexadecimal digits of the id (the digit string has the id as value and
no leading zero) with a `/` after every second digit and none at the end;
removing the `/` gives the digits back; the five test vectors hold. -/
theorem userPathPart_hex_slashes (userID : Int) (h0 : 0 ≤ userID) (h1 : userID < 2147483648) :
    hexValue (Utils.hexOfInt userID) = some userID.toNat
    ∧ (Utils.hexOfInt userID = ['0'] ∨ (Utils.hexOfInt userID).head? ≠ some '0')
    ∧ (Utils.userPathPart userID).data = insertSlashes (Utils.hexOfInt userID)
    ∧ (Utils.userPathPart userID).data.filter (fun c => c ≠ '/') = Utils.hexOfInt userID
    ∧ Utils.userPathPart 0x1 = "1"
    ∧ Utils.userPathPart 0xab = "ab"
    ∧ Utils.userPathPart 0x1a2 = "1a/2"
    ∧ Utils.userPathPart 0x1a2b = "1a/2b"
    ∧ Utils.userPathPart 0x1a2b3c = "1a/2b/3c" := by
  have hslash := slash_not_mem_hexOfInt userID
  have hdata : (Utils.userPathPart userID).data = insertSlashes (Utils.hexOfInt userID) := by
    show Utils.popTrailingSlash (Utils.userPathPartLoop (Utils.hexOfInt userID) 0 []) = _
    exact popTrailingSlash_loop _ 0 rfl hslash
  refine ⟨?_, ?_, hdata, ?_, by decide, by decide, by decide, by decide, by decide⟩
  · rw [hexOfInt_of_nonneg userID h0 h1]
    exact hexValue_toDigits _
  · rw [hexOfInt_of_nonneg userID h0 h1]
    rcases Nat.eq_zero_or_pos userID.toNat with hz | hpos
    · left
      rw [hz]
      rfl
    · right
      obtain ⟨d, hd0, hd16, hd⟩ := head_toDigits_hex _ hpos
      rw [hd]
      intro heq
      have hval := hexDigitValue_digitChar d hd16
      rw [Option.some.inj heq] at hval
      have : (0 : Nat) = d := Option.some.inj hval
      omega
  · rw [hdata]
    exact filter_insertSlashes _ hslash

theorem userPathPart_hex_slashes_witness :
    hexValue (Utils.hexOfInt 0x1a2b3) = some (0x1a2b3 : Int).toNat
    ∧ (Utils.hexOfInt 0x1a2b3 = ['0'] ∨ (Utils.hexOfInt 0x1a2b3).head? ≠ some '0')
    ∧ (Utils.userPathPart 0x1a2b3).data = insertSlashes (Utils.hexOfInt 0x1a2b3)
    ∧ (Utils.userPathPart 0x1a2b3).data.filter (fun c => c ≠ '/') = Utils.hexOfInt 0x1a2b3
    ∧ Utils.userPathPart 0x1 = "1"
    ∧ Utils.userPathPart 0xab = "ab"
    ∧ Utils.userPathPart 0x1a2 = "1a/2"
    ∧ Utils.userPathPart 0x1a2b = "1a/2b"
    ∧ Utils.userPathPart 0x1a2b3c = "1a/2b/3c" :=
  userPathPart_hex_slashes 0x1a2b3 (by decide) (by decide)

/-! ## C2: fail counter and auto-disable -/

/-- C2 (amended): for a job row with fail counter `c` and a result whose log write
succeeds, `storeResult` leaves `fail_counter` at 0 for OK and FAILED_TIMEOUT,
otherwise at `c + 1` when `c + 1 ≤ max_failures`, and at 0 with `enabled = 0`
when `c + 1 > max_failures`. For OK and FAILED_TIMEOUT the flag `enabled` is set
to 0 exactly when `max_failures < 0`; in every remaining case it is unchanged.
The other job rows are untouched. -/
theorem storeResult_fail_counter (self : UpdateThread) (gmtime_r : Int → Option Tm)
    (now created : Int) (fault : Option SQLiteStep) (w : World) (result : JobResult) (tmStruct : Tm)
    (pre post : List JobRow) (J : JobRow)
    (htm : gmtime_r (result.datePlanned / 1000 : Nat) = some tmStruct)
    (hlog : UpdateThread.logWriteRaises fault result = false)
    (hjob : w.db.job = pre ++ J :: post) (hJ : J.jobid = result.jobID)
    (hpre : ∀ r ∈ pre, r.jobid ≠ result.jobID) (hpost : ∀ r ∈ post, r.jobid ≠ result.jobID) :
    ∃ w' J', UpdateThread.storeResult self gmtime_r now created fault w result = some (Except.ok w')
      ∧ w'.db.job = pre ++ J' :: post
      ∧ J'.jobid = J.jobid
      ∧ J'.fail_counter =
          (if result.status = JobStatus_t.JOBSTATUS_OK
              ∨ result.status = JobStatus_t.JOBSTATUS_FAILED_TIMEOUT then 0
            else if J.fail_counter + 1 ≤ self.maxFailures then J.fail_counter + 1
            else 0)
      ∧ J'.enabled =
          (if result.status = JobStatus_t.JOBSTATUS_OK
              ∨ result.status = JobStatus_t.JOBSTATUS_FAILED_TIMEOUT then
              (if self.maxFailures < 0 then false else J.enabled)
            else if J.fail_counter + 1 ≤ self.maxFailures then J.enabled
            else false) := by
  obtain ⟨w', path, _, hstore, _, hjob', _⟩ :=
    storeResult_step self gmtime_r now created fault w result tmStruct pre post J htm hlog hjob hJ
      hpre hpost
  refine ⟨w', _, hstore, hjob', ?_, ?_, ?_⟩
  · split <;> rfl
  · by_cases hs : result.status = JobStatus_t.JOBSTATUS_OK
        ∨ result.status = JobStatus_t.JOBSTATUS_FAILED_TIMEOUT
    · simp only [UpdateThread.updatedRow, hs, if_true]
      split <;> rfl
    · simp only [UpdateThread.updatedRow, hs, if_false]
      by_cases hc : J.fail_counter + 1 ≤ self.maxFailures
      · rw [if_neg (by omega), if_pos hc]
      · rw [if_pos (by omega), if_neg hc]
        rfl
  · by_cases hs : result.status = JobStatus_t.JOBSTATUS_OK
        ∨ result.status = JobStatus_t.JOBSTATUS_FAILED_TIMEOUT
    · simp only [UpdateThread.updatedRow, hs, if_true]
      by_cases hm : self.maxFailures < 0
      · rw [if_pos (by omega), if_pos hm]
        rfl
      · rw [if_neg (by omega), if_neg hm]
    · simp only [UpdateThread.updatedRow, hs, if_false]
      by_cases hc : J.fail_counter + 1 ≤ self.maxFailures
      · rw [if_neg (by omega), if_pos hc]
      · rw [if_pos (by omega), if_neg hc]
        rfl

theorem storeResult_fail_counter_witness :
    ∃ w' J', UpdateThread.storeResult scenarioConfig scenarioGmtime 1578304501 1578304500 none
        scenarioWorld scenarioFailure = some (Except.ok w')
      ∧ w'.db.job = [scenarioOtherJob] ++ J' :: []
      ∧ J'.jobid = 7 ∧ J'.fail_counter = 1 ∧ J'.enabled = true :=
  storeResult_fail_counter scenarioConfig scenarioGmtime 1578304501 1578304500 none scenarioWorld
    scenarioFailure (utcTime 1578304500) [scenarioOtherJob] [] scenarioJob
    (by decide) (by decide) (by decide) (by decide) (by decide) (by decide)

/-- C2, as stated, fails: with `max_failures = -1` an OK result, which the claim
says leaves `enabled` alone, sets `enabled` of the job to 0. -/
theorem storeResult_ok_result_disables :
    scenarioSuccess.status = JobStatus_t.JOBSTATUS_OK
    ∧ scenarioWorld.db.job.map (fun r => (r.jobid, r.enabled)) = [(8, false), (7, true)]
    ∧ (resultingDb (UpdateThread.storeResult { scenarioConfig with maxFailures := -1 }
          scenarioGmtime 1578304501 1578304500 none scenarioWorld scenarioSuccess)).map
        (fun db => db.job.map fun r => (r.jobid, r.enabled))
        = some [(8, false), (7, false)] := by
  decide

/-! ## C3: the auto-disable scenario -/

/-- C3 (amended): with `max_failures = 2`, a job at `fail_counter = 0` and four
consecutive FAILED_OTHER results carrying `notify_failure` and `notify_disable`,
the counters read back are 1, 2, 3, 1; the third result disables the job,
resets its counter and inserts the one DISABLE notification; the first and the
fourth result insert a FAILURE notification each; the second inserts none. -/
theorem storeResult_four_failures (self : UpdateThread) (gmtime_r : Int → Option Tm)
    (now1 now2 now3 now4 cr1 cr2 cr3 cr4 : Int) (f1 f2 f3 f4 : Option SQLiteStep) (w : World)
    (r1 r2 r3 r4 : JobResult) (pre post : List JobRow) (J : JobRow)
    (hmax : self.maxFailures = 2)
    (hgm : ∀ t, ∃ tmStruct, gmtime_r t = some tmStruct)
    (hjob : w.db.job = pre ++ J :: post) (hc : J.fail_counter = 0)
    (hpre : ∀ r ∈ pre, r.jobid ≠ J.jobid) (hpost : ∀ r ∈ post, r.jobid ≠ J.jobid)
    (hr : ∀ r ∈ [r1, r2, r3, r4], r.jobID = J.jobid
      ∧ r.status = JobStatus_t.JOBSTATUS_FAILED_OTHER
      ∧ r.notifyFailure = true ∧ r.notifyDisable = true)
    (hl1 : UpdateThread.logWriteRaises f1 r1 = false)
    (hl2 : UpdateThread.logWriteRaises f2 r2 = false)
    (hl3 : UpdateThread.logWriteRaises f3 r3 = false)
    (hl4 : UpdateThread.logWriteRaises f4 r4 = false) :
    ∃ w1 w2 w3 w4 n1 n3 n4 J3,
      UpdateThread.storeResult self gmtime_r now1 cr1 f1 w r1 = some (Except.ok w1)
      ∧ UpdateThread.storeResult self gmtime_r now2 cr2 f2 w1 r2 = some (Except.ok w2)
      ∧ UpdateThread.storeResult self gmtime_r now3 cr3 f3 w2 r3 = some (Except.ok w3)
      ∧ UpdateThread.storeResult self gmtime_r now4 cr4 f4 w3 r4 = some (Except.ok w4)
      ∧ UpdateThread.observedFailCounter w.db r1 = 1
      ∧ UpdateThread.observedFailCounter w1.db r2 = 2
      ∧ UpdateThread.observedFailCounter w2.db r3 = 3
      ∧ UpdateThread.observedFailCounter w3.db r4 = 1
      ∧ w1.db.notification = w.db.notification ++ [n1]
      ∧ n1.type = NotificationType_t.NOTIFICATION_TYPE_FAILURE
      ∧ w2.db.notification = w1.db.notification
      ∧ w3.db.notification = w2.db.notification ++ [n3]
      ∧ n3.type = NotificationType_t.NOTIFICATION_TYPE_DISABLE
      ∧ w3.db.job = pre ++ J3 :: post ∧ J3.enabled = false ∧ J3.fail_counter = 0
      ∧ w4.db.notification = w3.db.notification ++ [n4]
      ∧ n4.type = NotificationType_t.NOTIFICATION_TYPE_FAILURE := by
  obtain ⟨h1id, h1s, h1f, h1d⟩ := hr r1 (by simp)
  obtain ⟨h2id, h2s, h2f, h2d⟩ := hr r2 (by simp)
  obtain ⟨h3id, h3s, h3f, h3d⟩ := hr r3 (by simp)
  obtain ⟨h4id, h4s, h4f, h4d⟩ := hr r4 (by simp)
  obtain ⟨t1, ht1⟩ := hgm (r1.datePlanned / 1000 : Nat)
  obtain ⟨t2, ht2⟩ := hgm (r2.datePlanned / 1000 : Nat)
  obtain ⟨t3, ht3⟩ := hgm (r3.datePlanned / 1000 : Nat)
  obtain ⟨t4, ht4⟩ := hgm (r4.datePlanned / 1000 : Nat)
  obtain ⟨w1, p1, _, hs1, ho1, hj1, hn1⟩ :=
    storeResult_step self gmtime_r now1 cr1 f1 w r1 t1 pre post J ht1 hl1 hjob h1id.symm
      (by rw [h1id]; exact hpre) (by rw [h1id]; exact hpost)
  have hc1 : (UpdateThread.updatedRow r1 J).fail_counter = 1 := by
    rw [updatedRow_fail_counter_failed r1 _ h1s, hc]
    rfl
  rw [hc1] at ho1 hj1 hn1
  rw [if_neg (by rw [hmax]; decide)] at hj1
  obtain ⟨w2, p2, _, hs2, ho2, hj2, hn2⟩ :=
    storeResult_step self gmtime_r now2 cr2 f2 w1 r2 t2 pre post _ ht2 hl2 hj1 h2id.symm
      (by rw [h2id]; exact hpre) (by rw [h2id]; exact hpost)
  have hc2 : (UpdateThread.updatedRow r2 (UpdateThread.updatedRow r1 J)).fail_counter = 2 := by
    rw [updatedRow_fail_counter_failed r2 _ h2s, hc1]
    rfl
  rw [hc2] at ho2 hj2 hn2
  rw [if_neg (by rw [hmax]; decide)] at hj2
  obtain ⟨w3, p3, _, hs3, ho3, hj3, hn3⟩ :=
    storeResult_step self gmtime_r now3 cr3 f3 w2 r3 t3 pre post _ ht3 hl3 hj2 h3id.symm
      (by rw [h3id]; exact hpre) (by rw [h3id]; exact hpost)
  have hc3 : (UpdateThread.updatedRow r3
      (UpdateThread.updatedRow r2 (UpdateThread.updatedRow r1 J))).fail_counter = 3 := by
    rw [updatedRow_fail_counter_failed r3 _ h3s, hc2]
    rfl
  rw [hc3] at ho3 hj3 hn3
  rw [if_pos (by rw [hmax]; decide)] at hj3
  obtain ⟨w4, p4, _, hs4, ho4, _, hn4⟩ :=
    storeResult_step self gmtime_r now4 cr4 f4 w3 r4 t4 pre post _ ht4 hl4 hj3 h4id.symm
      (by rw [h4id]; exact hpre) (by rw [h4id]; exact hpost)
  have hc4 : (UpdateThread.updatedRow r4 (UpdateThread.disabledRow (UpdateThread.updatedRow r3
      (UpdateThread.updatedRow r2 (UpdateThread.updatedRow r1 J))))).fail_counter = 1 := by
    rw [updatedRow_fail_counter_failed r4 _ h4s]
    rfl
  rw [hc4] at ho4 hn4
  have hd1 : UpdateThread.notificationDecision self r1 1
      = some NotificationType_t.NOTIFICATION_TYPE_FAILURE := by
    simp [UpdateThread.notificationDecision, hmax, h1s, h1f]
  have hd2 : UpdateThread.notificationDecision self r2 2 = none := by
    simp [UpdateThread.notificationDecision, hmax, h2s]
  have hd3 : UpdateThread.notificationDecision self r3 3
      = some NotificationType_t.NOTIFICATION_TYPE_DISABLE := by
    simp [UpdateThread.notificationDecision, hmax, h3s, h3d]
  have hd4 : UpdateThread.notificationDecision self r4 1
      = some NotificationType_t.NOTIFICATION_TYPE_FAILURE := by
    simp [UpdateThread.notificationDecision, hmax, h4s, h4f]
  rw [hd1] at hn1
  rw [hd2, List.append_nil] at hn2
  rw [hd3] at hn3
  rw [hd4] at hn4
  exact ⟨w1, w2, w3, w4, _, _, _, _, hs1, hs2, hs3, hs4, ho1, ho2, ho3, ho4, hn1, rfl, hn2,
    hn3, rfl, hj3, rfl, rfl, hn4, rfl⟩

theorem storeResult_four_failures_witness :
    ∃ w1 w2 w3 w4 n1 n3 n4 J3,
      UpdateThread.storeResult scenarioConfig scenarioGmtime 1 1 none scenarioWorld
        scenarioFailure = some (Except.ok w1)
      ∧ UpdateThread.storeResult scenarioConfig scenarioGmtime 2 2 none w1
        scenarioFailure = some (Except.ok w2)
      ∧ UpdateThread.storeResult scenarioConfig scenarioGmtime 3 3 none w2
        scenarioFailure = some (Except.ok w3)
      ∧ UpdateThread.storeResult scenarioConfig scenarioGmtime 4 5 none w3
        scenarioFailure = some (Except.ok w4)
      ∧ UpdateThread.observedFailCounter scenarioWorld.db scenarioFailure = 1
      ∧ UpdateThread.observedFailCounter w1.db scenarioFailure = 2
      ∧ UpdateThread.observedFailCounter w2.db scenarioFailure = 3
      ∧ UpdateThread.observedFailCounter w3.db scenarioFailure = 1
      ∧ w1.db.notification = scenarioWorld.db.notification ++ [n1]
      ∧ n1.type = NotificationType_t.NOTIFICATION_TYPE_FAILURE
      ∧ w2.db.notification = w1.db.notification
      ∧ w3.db.notification = w2.db.notification ++ [n3]
      ∧ n3.type = NotificationType_t.NOTIFICATION_TYPE_DISABLE
      ∧ w3.db.job = [scenarioOtherJob] ++ J3 :: [] ∧ J3.enabled = false ∧ J3.fail_counter = 0
      ∧ w4.db.notification = w3.db.notification ++ [n4]
      ∧ n4.type = NotificationType_t.NOTIFICATION_TYPE_FAILURE :=
  storeResult_four_failures scenarioConfig scenarioGmtime 1 2 3 4 1 2 3 5 none none none none
    scenarioWorld scenarioFailure scenarioFailure scenarioFailure scenarioFailure
    [scenarioOtherJob] [] scenarioJob rfl (fun t => ⟨utcTime t, rfl⟩) (by decide) (by decide)
    (by decide) (by decide) (by decide) (by decide) (by decide) (by decide) (by decide)

/-- C3, as stated, fails: in the scenario the notifications written by the first
three results are already FAILURE and DISABLE (the DISABLE row is written by
the third result, not the fourth), and the fourth result writes a second
FAILURE row, so that FAILURE is emitted twice and not exactly once. -/
theorem storeResults_four_failures_notifications :
    scenarioConfig.maxFailures = 2
    ∧ (resultingDb (UpdateThread.storeResults scenarioConfig scenarioGmtime scenarioWorld
          [(1, 1, none, scenarioFailure), (2, 2, none, scenarioFailure),
           (3, 3, none, scenarioFailure)])).map
        (fun db => db.notification.map fun n => n.type)
        = some [NotificationType_t.NOTIFICATION_TYPE_FAILURE,
            NotificationType_t.NOTIFICATION_TYPE_DISABLE]
    ∧ (resultingDb (UpdateThread.storeResults scenarioConfig scenarioGmtime scenarioWorld
          [(1, 1, none, scenarioFailure), (2, 2, none, scenarioFailure),
           (3, 3, none, scenarioFailure), (4, 5, none, scenarioFailure)])).map
        (fun db => db.notification.map fun n => n.type)
        = some [NotificationType_t.NOTIFICATION_TYPE_FAILURE,
            NotificationType_t.NOTIFICATION_TYPE_DISABLE,
            NotificationType_t.NOTIFICATION_TYPE_FAILURE] := by
  decide

/-! ## C4: DISABLE against the later notification tests -/

/-- C4 (amended): when the counter read back exceeds `max_failures` and
`notify_disable` is set, `storeResult` inserts exactly one notification row. Its
type is SUCCESS when the SUCCESS test holds (`notify_success`, status OK,
`old_fail_counter > 0`, counter 0), else FAILURE when the FAILURE test holds
(`notify_failure`, status not OK, counter 1), else DISABLE; for
`max_failures ≥ 1` it is DISABLE. -/
theorem storeResult_disable_notification (self : UpdateThread) (gmtime_r : Int → Option Tm)
    (now created : Int) (fault : Option SQLiteStep) (w : World) (result : JobResult) (tmStruct : Tm)
    (htm : gmtime_r (result.datePlanned / 1000 : Nat) = some tmStruct)
    (hlog : UpdateThread.logWriteRaises fault result = false)
    (hobs : UpdateThread.observedFailCounter w.db result > self.maxFailures)
    (hnd : result.notifyDisable = true) :
    ∃ w' n, UpdateThread.storeResult self gmtime_r now created fault w result = some (Except.ok w')
      ∧ w'.db.notification = w.db.notification ++ [n]
      ∧ n.jobid = result.jobID
      ∧ n.type =
          (if result.notifySuccess = true ∧ result.status = JobStatus_t.JOBSTATUS_OK
              ∧ result.oldFailCounter > 0
              ∧ UpdateThread.observedFailCounter w.db result = 0 then
            NotificationType_t.NOTIFICATION_TYPE_SUCCESS
          else if result.notifyFailure = true ∧ result.status ≠ JobStatus_t.JOBSTATUS_OK
              ∧ UpdateThread.observedFailCounter w.db result = 1 then
            NotificationType_t.NOTIFICATION_TYPE_FAILURE
          else NotificationType_t.NOTIFICATION_TYPE_DISABLE)
      ∧ (1 ≤ self.maxFailures → n.type = NotificationType_t.NOTIFICATION_TYPE_DISABLE) := by
  obtain ⟨path, _, hstore⟩ :=
    storeResult_of_log_ok self gmtime_r now created fault w result tmStruct htm hlog
  have hdec : UpdateThread.notificationDecision self result
      (UpdateThread.observedFailCounter w.db result) =
      some (if result.notifySuccess = true ∧ result.status = JobStatus_t.JOBSTATUS_OK
              ∧ result.oldFailCounter > 0
              ∧ UpdateThread.observedFailCounter w.db result = 0 then
            NotificationType_t.NOTIFICATION_TYPE_SUCCESS
          else if result.notifyFailure = true ∧ result.status ≠ JobStatus_t.JOBSTATUS_OK
              ∧ UpdateThread.observedFailCounter w.db result = 1 then
            NotificationType_t.NOTIFICATION_TYPE_FAILURE
          else NotificationType_t.NOTIFICATION_TYPE_DISABLE) := by
    unfold UpdateThread.notificationDecision
    simp only [hobs, hnd, and_self, if_true]
    split
    · rfl
    · split <;> rfl
  have key : ∀ t, UpdateThread.notificationDecision self result
      (UpdateThread.observedFailCounter w.db result) = some t →
      ∃ w' n, UpdateThread.storeResult self gmtime_r now created fault w result = some (Except.ok w')
        ∧ w'.db.notification = w.db.notification ++ [n]
        ∧ n.jobid = result.jobID ∧ n.type = t := by
    intro t ht
    refine ⟨_, NotificationRow.mk result.jobID (castInt (insertId (w.userDBs path).joblog))
      (castInt now) t, hstore, ?_, rfl, rfl⟩
    show (UpdateThread.applyResult self now w.db result _).notification = _
    rw [applyResult_notification, ht]
  obtain ⟨w', n, h1, h2, h3, h4⟩ := key _ hdec
  refine ⟨w', n, h1, h2, h3, h4, ?_⟩
  intro hmax
  rw [h4, if_neg (fun h => by omega), if_neg (fun h => by omega)]

theorem storeResult_disable_notification_witness :
    ∃ w' n, UpdateThread.storeResult scenarioConfig scenarioGmtime 1578304501 1578304500 none
        { scenarioWorld with db := { scenarioDb with job := [{ scenarioJob with fail_counter := 2 }] } }
        scenarioFailure = some (Except.ok w')
      ∧ w'.db.notification = [] ++ [n]
      ∧ n.jobid = 7
      ∧ n.type = NotificationType_t.NOTIFICATION_TYPE_DISABLE
      ∧ ((1 : Int) ≤ 2 → n.type = NotificationType_t.NOTIFICATION_TYPE_DISABLE) :=
  storeResult_disable_notification scenarioConfig scenarioGmtime 1578304501 1578304500 none
    { scenarioWorld with db := { scenarioDb with job := [{ scenarioJob with fail_counter := 2 }] } }
    scenarioFailure (utcTime 1578304500) (by decide) (by decide) (by decide) (by decide)

/-- C4, as stated, fails: with `max_failures = 0` the first failure of a job
with `notify_failure` and `notify_disable` reads back the counter 1, which
exceeds `max_failures`, and the one notification row written has type FAILURE. -/
theorem storeResult_failure_overrides_disable :
    UpdateThread.observedFailCounter scenarioWorld.db scenarioFailure > 0
    ∧ scenarioFailure.notifyDisable = true
    ∧ (resultingDb (UpdateThread.storeResult { scenarioConfig with maxFailures := 0 }
          scenarioGmtime 1578304501 1578304500 none scenarioWorld scenarioFailure)).map
        (fun db => (db.notification.map fun n => n.type,
          db.job.map fun r => (r.jobid, r.enabled)))
        = some ([NotificationType_t.NOTIFICATION_TYPE_FAILURE], [(8, false), (7, false)]) := by
  decide

/-! ## Lemmas on the key of the new `joblog` row -/

theorem castInt_of_range (x : Int) (h0 : -2147483648 ≤ x) (h1 : x ≤ 2147483647) :
    castInt x = x := by
  unfold castInt
  omega

theorem foldl_max_ge (rows : List JobLogRow) :
    ∀ a : Int, a ≤ rows.foldl (fun m row => max m row.joblogid) a := by
  induction rows with
  | nil => intro a; exact Int.le_refl a
  | cons r rest ih =>
    intro a
    exact Int.le_trans (Int.le_max_left a r.joblogid) (ih (max a r.joblogid))

theorem insertId_pos (joblog : List JobLogRow) : 1 ≤ insertId joblog := by
  have := foldl_max_ge joblog 0
  unfold insertId
  omega

theorem castInt_insertId (joblog : List JobLogRow) (h : insertId joblog ≤ 2147483647) :
    castInt (insertId joblog) = insertId joblog :=
  castInt_of_range _ (by have := insertId_pos joblog; omega) h

/-! ## C5: recovery notification -/

/-- C5 (amended): for `max_failures ≥ 0` and an OK result whose log write
succeeds, `storeResult` appends one `joblog` row, keeps every row of `job` and
sets `fail_counter` of the rows of the job to 0 (leaving `enabled` alone), and,
when `notify_success` is set and `old_fail_counter > 0`, inserts exactly one
notification row, of type SUCCESS, whose `joblogid` is the key of that `joblog`
row narrowed by `static_cast<int>`: the key itself when it is at most
2147483647; otherwise it inserts no notification row. -/
theorem storeResult_recovery (self : UpdateThread) (gmtime_r : Int → Option Tm)
    (now created : Int) (fault : Option SQLiteStep) (w : World) (result : JobResult)
    (tmStruct : Tm)
    (hmax : 0 ≤ self.maxFailures)
    (hs : result.status = JobStatus_t.JOBSTATUS_OK)
    (htm : gmtime_r (result.datePlanned / 1000 : Nat) = some tmStruct)
    (hlog : UpdateThread.logWriteRaises fault result = false) :
    ∃ w' path jl, UpdateThread.dbFilePath self tmStruct result = some path
      ∧ UpdateThread.storeResult self gmtime_r now created fault w result
          = some (Except.ok w')
      ∧ (w'.userDBs path).joblog = (w.userDBs path).joblog ++ [jl]
      ∧ jl.jobid = result.jobID
      ∧ jl.joblogid = insertId (w.userDBs path).joblog
      ∧ w'.db.job = w.db.job.map (fun row =>
          if row.jobid = result.jobID then UpdateThread.updatedRow result row else row)
      ∧ (∀ row : JobRow, (UpdateThread.updatedRow result row).fail_counter = 0
          ∧ (UpdateThread.updatedRow result row).jobid = row.jobid
          ∧ (UpdateThread.updatedRow result row).enabled = row.enabled)
      ∧ (∀ row ∈ w'.db.job, row.jobid = result.jobID → row.fail_counter = 0)
      ∧ (result.notifySuccess = true ∧ result.oldFailCounter > 0 →
          w'.db.notification = w.db.notification ++
            [{ jobid := result.jobID, joblogid := castInt jl.joblogid, date := castInt now,
               type := NotificationType_t.NOTIFICATION_TYPE_SUCCESS }])
      ∧ (jl.joblogid ≤ 2147483647 → castInt jl.joblogid = jl.joblogid)
      ∧ (¬ (result.notifySuccess = true ∧ result.oldFailCounter > 0) →
          w'.db.notification = w.db.notification) := by
  obtain ⟨path, hpath, hstore⟩ :=
    storeResult_of_log_ok self gmtime_r now created fault w result tmStruct htm hlog
  have hins : UpdateThread.jobLogInsertRaises fault = false := by
    simp only [UpdateThread.logWriteRaises, Bool.or_eq_false_iff] at hlog
    exact hlog.1
  have hjl := writeJobLog_joblog created fault (w.userDBs path) result hins
  have hobs := observedFailCounter_reset w.db result (Or.inl hs)
  have hnot := applyResult_notification self now w.db result
    (castInt (insertId (w.userDBs path).joblog))
  rw [hobs] at hnot
  have hjob : (UpdateThread.applyResult self now w.db result
      (castInt (insertId (w.userDBs path).joblog))).job
      = (UpdateThread.updateJobQuery w.db result).job := by
    rw [applyResult_job, hobs, if_neg (by omega)]
  refine ⟨_, path, UpdateThread.jobLogRow created (insertId (w.userDBs path).joblog) result,
    hpath, hstore, ?_, rfl, rfl, hjob, ?_, ?_, ?_, ?_, ?_⟩
  · show (Function.update w.userDBs path _ path).joblog = _
    rw [Function.update_same]
    exact hjl
  · intro row
    refine ⟨?_, rfl, rfl⟩
    simp [UpdateThread.updatedRow, hs]
  · show ∀ row ∈ (UpdateThread.applyResult self now w.db result _).job, _
    rw [hjob]
    exact updateJobQuery_reset w.db result (Or.inl hs)
  · intro hn
    show (UpdateThread.applyResult self now w.db result _).notification = _
    rw [hnot]
    simp [UpdateThread.notificationDecision, UpdateThread.jobLogRow, hs, hn.1, hn.2]
  · intro hle
    exact castInt_insertId _ hle
  · intro hn
    show (UpdateThread.applyResult self now w.db result _).notification = _
    rw [hnot]
    have h0 : ¬ ((0 : Int) > self.maxFailures) := by omega
    simp only [UpdateThread.notificationDecision, h0, false_and, if_false, hs, ne_eq,
      not_true_eq_false, and_false, true_and, and_true]
    rw [if_neg hn]
    simp

theorem storeResult_recovery_witness :
    ∃ w' path jl, UpdateThread.dbFilePath scenarioConfig (utcTime 1578304500) scenarioSuccess
        = some path
      ∧ UpdateThread.storeResult scenarioConfig scenarioGmtime 1578304501 1578304500 none
          scenarioWorld scenarioSuccess = some (Except.ok w')
      ∧ (w'.userDBs path).joblog = (scenarioWorld.userDBs path).joblog ++ [jl]
      ∧ jl.jobid = scenarioSuccess.jobID
      ∧ jl.joblogid = insertId (scenarioWorld.userDBs path).joblog
      ∧ w'.db.job = scenarioWorld.db.job.map (fun row =>
          if row.jobid = scenarioSuccess.jobID then
            UpdateThread.updatedRow scenarioSuccess row
          else row)
      ∧ (∀ row : JobRow, (UpdateThread.updatedRow scenarioSuccess row).fail_counter = 0
          ∧ (UpdateThread.updatedRow scenarioSuccess row).jobid = row.jobid
          ∧ (UpdateThread.updatedRow scenarioSuccess row).enabled = row.enabled)
      ∧ (∀ row ∈ w'.db.job, row.jobid = scenarioSuccess.jobID → row.fail_counter = 0)
      ∧ (scenarioSuccess.notifySuccess = true ∧ scenarioSuccess.oldFailCounter > 0 →
          w'.db.notification = scenarioWorld.db.notification ++
            [{ jobid := scenarioSuccess.jobID, joblogid := castInt jl.joblogid,
               date := castInt 1578304501,
               type := NotificationType_t.NOTIFICATION_TYPE_SUCCESS }])
      ∧ (jl.joblogid ≤ 2147483647 → castInt jl.joblogid = jl.joblogid)
      ∧ (¬ (scenarioSuccess.notifySuccess = true ∧ scenarioSuccess.oldFailCounter > 0) →
          w'.db.notification = scenarioWorld.db.notification) :=
  storeResult_recovery scenarioConfig scenarioGmtime 1578304501 1578304500 none scenarioWorld
    scenarioSuccess (utcTime 1578304500) (by decide) (by decide) (by decide) (by decide)

/-- C5, as stated, fails: when the database file already holds the `joblog` key
2147483647, the OK result with `notify_success` and `old_fail_counter = 3` is
logged under the key 2147483648, and the one SUCCESS notification written
carries `joblogid = -2147483648`, which is not the key of that `joblog` row. -/
theorem storeResult_recovery_key_narrowed :
    scenarioConfig.maxFailures = 2
    ∧ scenarioSuccess.status = JobStatus_t.JOBSTATUS_OK
    ∧ scenarioSuccess.notifySuccess = true
    ∧ scenarioSuccess.oldFailCounter = 3
    ∧ UpdateThread.logWriteRaises none scenarioSuccess = false
    ∧ (resultingUserDB (UpdateThread.storeResult scenarioConfig scenarioGmtime 1578304501
          1578304500 none scenarioLargeKeyWorld scenarioSuccess) scenarioPath).map
        (fun userDB => userDB.joblog.map fun r => r.joblogid)
        = some [2147483647, 2147483648]
    ∧ (resultingDb (UpdateThread.storeResult scenarioConfig scenarioGmtime 1578304501
          1578304500 none scenarioLargeKeyWorld scenarioSuccess)).map
        (fun db => db.notification.map fun n => (n.joblogid, n.type))
        = some [(-2147483648, NotificationType_t.NOTIFICATION_TYPE_SUCCESS)] := by
  decide

/-! ## C6: response capture -/

/-- C6 (amended): for a result whose `joblog` insert succeeds, `storeResult`
appends one `joblog` row, and it appends a `joblog_response` row exactly when
`save_responses` is set, headers or body are non-empty and the `joblog_response`
insert does not fail; it then appends exactly one, whose `joblogid` is the key
of the `joblog` row of this result narrowed by `static_cast<int>`: the key
itself when it is at most 2147483647. No other database file is changed. -/
theorem storeResult_response_row (self : UpdateThread) (gmtime_r : Int → Option Tm)
    (now created : Int) (fault : Option SQLiteStep) (w : World) (result : JobResult)
    (tmStruct : Tm)
    (htm : gmtime_r (result.datePlanned / 1000 : Nat) = some tmStruct)
    (hins : UpdateThread.jobLogInsertRaises fault = false) :
    ∃ w' path jl, UpdateThread.dbFilePath self tmStruct result = some path
      ∧ UpdateThread.storeResult self gmtime_r now created fault w result
          = some (Except.ok w')
      ∧ (w'.userDBs path).joblog = (w.userDBs path).joblog ++ [jl]
      ∧ jl.joblogid = insertId (w.userDBs path).joblog
      ∧ (result.saveResponses = true
            ∧ (result.responseHeaders ≠ "" ∨ result.responseBody ≠ "")
            ∧ fault ≠ some SQLiteStep.insertJobLogResponse →
          ∃ rr, (w'.userDBs path).joblog_response = (w.userDBs path).joblog_response ++ [rr]
            ∧ rr.joblogid = castInt jl.joblogid
            ∧ (jl.joblogid ≤ 2147483647 → rr.joblogid = jl.joblogid))
      ∧ (¬ (result.saveResponses = true
            ∧ (result.responseHeaders ≠ "" ∨ result.responseBody ≠ "")
            ∧ fault ≠ some SQLiteStep.insertJobLogResponse) →
          (w'.userDBs path).joblog_response = (w.userDBs path).joblog_response)
      ∧ (∀ p, p ≠ path → w'.userDBs p = w.userDBs p) := by
  obtain ⟨path, hpath⟩ := dbFilePath_isSome self tmStruct result
  have hstore := storeResult_eq self gmtime_r now created fault w result tmStruct path htm hpath
  have hjl := writeJobLog_joblog created fault (w.userDBs path) result hins
  have hresp := writeJobLog_response created fault (w.userDBs path) result hins
  refine ⟨_, path, UpdateThread.jobLogRow created (insertId (w.userDBs path).joblog) result,
    hpath, hstore, ?_, rfl, ?_, ?_, ?_⟩
  · show (Function.update w.userDBs path _ path).joblog = _
    rw [Function.update_same]
    exact hjl
  · intro hc
    refine ⟨UpdateThread.jobLogResponseRow created
      (castInt (insertId (w.userDBs path).joblog)) result, ?_, rfl, ?_⟩
    · show (Function.update w.userDBs path _ path).joblog_response = _
      rw [Function.update_same, hresp,
        if_pos ⟨(wantsResponse_iff result).mpr ⟨hc.1, hc.2.1⟩, hc.2.2⟩]
    · intro hle
      exact castInt_insertId _ hle
  · intro hc
    show (Function.update w.userDBs path _ path).joblog_response = _
    rw [Function.update_same, hresp, if_neg]
    intro hw
    exact hc ⟨((wantsResponse_iff result).mp hw.1).1, ((wantsResponse_iff result).mp hw.1).2,
      hw.2⟩
  · intro p hp
    show Function.update w.userDBs path _ p = _
    exact Function.update_noteq hp _ _

theorem storeResult_response_row_witness :
    ∃ w' path jl, UpdateThread.dbFilePath scenarioConfig (utcTime 1578304500) scenarioFailure
        = some path
      ∧ UpdateThread.storeResult scenarioConfig scenarioGmtime 1578304501 1578304500 none
          scenarioWorld scenarioFailure = some (Except.ok w')
      ∧ (w'.userDBs path).joblog = (scenarioWorld.userDBs path).joblog ++ [jl]
      ∧ jl.joblogid = insertId (scenarioWorld.userDBs path).joblog
      ∧ (scenarioFailure.saveResponses = true
            ∧ (scenarioFailure.responseHeaders ≠ "" ∨ scenarioFailure.responseBody ≠ "")
            ∧ (none : Option SQLiteStep) ≠ some SQLiteStep.insertJobLogResponse →
          ∃ rr, (w'.userDBs path).joblog_response
              = (scenarioWorld.userDBs path).joblog_response ++ [rr]
            ∧ rr.joblogid = castInt jl.joblogid
            ∧ (jl.joblogid ≤ 2147483647 → rr.joblogid = jl.joblogid))
      ∧ (¬ (scenarioFailure.saveResponses = true
            ∧ (scenarioFailure.responseHeaders ≠ "" ∨ scenarioFailure.responseBody ≠ "")
            ∧ (none : Option SQLiteStep) ≠ some SQLiteStep.insertJobLogResponse) →
          (w'.userDBs path).joblog_response = (scenarioWorld.userDBs path).joblog_response)
      ∧ (∀ p, p ≠ path → w'.userDBs p = scenarioWorld.userDBs p) :=
  storeResult_response_row scenarioConfig scenarioGmtime 1578304501 1578304500 none
    scenarioWorld scenarioFailure (utcTime 1578304500) (by decide) (by decide)

/-- C6, as stated, fails in two ways. First: the `joblog` insert of the scenario
result succeeds, `save_responses` is set and the body is non-empty, but the
`joblog_response` insert raises; the database file then holds the new `joblog`
row and no `joblog_response` row. Second: when the file already holds the key
2147483647 and no statement raises, the new `joblog` row has key 2147483648 and
the `joblog_response` row has `joblogid = -2147483648`. -/
theorem storeResult_response_insert_fails :
    UpdateThread.jobLogInsertRaises (some SQLiteStep.insertJobLogResponse) = false
    ∧ scenarioFailure.saveResponses = true
    ∧ scenarioFailure.responseBody ≠ ""
    ∧ UpdateThread.dbFilePath scenarioConfig (utcTime 1578304500) scenarioFailure
        = some scenarioPath
    ∧ (resultingUserDB (UpdateThread.storeResult scenarioConfig scenarioGmtime 1578304501
          1578304500 (some SQLiteStep.insertJobLogResponse) scenarioWorld scenarioFailure)
          scenarioPath).map
        (fun userDB => (userDB.joblog.map fun r => r.joblogid,
          userDB.joblog_response.map fun r => r.joblogid))
        = some ([1], [])
    ∧ (resultingUserDB (UpdateThread.storeResult scenarioConfig scenarioGmtime 1578304501
          1578304500 none scenarioLargeKeyWorld scenarioFailure) scenarioPath).map
        (fun userDB => (userDB.joblog.map fun r => r.joblogid,
          userDB.joblog_response.map fun r => r.joblogid))
        = some ([2147483647, 2147483648], [-2147483648]) := by
  decide

/-! ## C9: failure of the log store -/

/-- C9: when a statement of the log store raises inside `storeResult` (opening
the file, the DDL, the `joblog` insert or the `joblog_response` insert), the call
returns normally and the relational store is unchanged: no column of `job` is
modified and no notification row is inserted. -/
theorem storeResult_log_failure (self : UpdateThread) (gmtime_r : Int → Option Tm)
    (now created : Int) (fault : Option SQLiteStep) (w : World) (result : JobResult) (tmStruct : Tm)
    (htm : gmtime_r (result.datePlanned / 1000 : Nat) = some tmStruct)
    (hfail : UpdateThread.logWriteRaises fault result = true) :
    ∃ w', UpdateThread.storeResult self gmtime_r now created fault w result = some (Except.ok w')
      ∧ w'.db = w.db
      ∧ w'.db.job = w.db.job
      ∧ w'.db.notification = w.db.notification := by
  obtain ⟨path, hpath⟩ := dbFilePath_isSome self tmStruct result
  have hstore := storeResult_eq self gmtime_r now created fault w result tmStruct path htm hpath
  obtain ⟨e, he⟩ := writeJobLog_snd_error created fault (w.userDBs path) result hfail
  rw [he] at hstore
  exact ⟨_, hstore, rfl, rfl, rfl⟩

theorem storeResult_log_failure_witness :
    ∃ w', UpdateThread.storeResult scenarioConfig scenarioGmtime 1578304501 1578304500
        (some SQLiteStep.insertJobLogResponse) scenarioWorld scenarioFailure
        = some (Except.ok w')
      ∧ w'.db = scenarioWorld.db
      ∧ w'.db.job = scenarioWorld.db.job
      ∧ w'.db.notification = scenarioWorld.db.notification :=
  storeResult_log_failure scenarioConfig scenarioGmtime 1578304501 1578304500
    (some SQLiteStep.insertJobLogResponse) scenarioWorld scenarioFailure (utcTime 1578304500)
    (by decide) (by decide)

/-! ## C7: wildcard matching -/

/-- C7: for a job `J` of the `job` table (`jobid` being its key) whose owner has
time zone `timeZone`, the requests built by `processJobsForTimeZone` contain `J`
exactly when `J` is enabled and each of its five schedule sets contains `-1` or
the corresponding field of the civil time; a job that is not enabled is never
selected, and no job is selected twice. -/
theorem processJobsForTimeZone_selection (db : MySQL_DB)
    (hour minute month mday wday year timestamp : Int) (timeZone : String) (J : JobRow)
    (hJ : J ∈ db.job) (hkey : ∀ J' ∈ db.job, J'.jobid = J.jobid → J' = J)
    (howner : ∃ u ∈ db.user, J.userid = u.userid ∧ u.timezone = timeZone) :
    (J.jobid ∈ (App.processJobsForTimeZone db hour minute month mday wday year timestamp
          timeZone).map (fun req => req.jobID)
      ↔ J.enabled = true
        ∧ (-1 ∈ scheduleSet db.job_hours J.jobid ∨ hour ∈ scheduleSet db.job_hours J.jobid)
        ∧ (-1 ∈ scheduleSet db.job_minutes J.jobid ∨ minute ∈ scheduleSet db.job_minutes J.jobid)
        ∧ (-1 ∈ scheduleSet db.job_mdays J.jobid ∨ mday ∈ scheduleSet db.job_mdays J.jobid)
        ∧ (-1 ∈ scheduleSet db.job_wdays J.jobid ∨ wday ∈ scheduleSet db.job_wdays J.jobid)
        ∧ (-1 ∈ scheduleSet db.job_months J.jobid ∨ month ∈ scheduleSet db.job_months J.jobid))
    ∧ (J.enabled = false →
        J.jobid ∉ (App.processJobsForTimeZone db hour minute month mday wday year timestamp
          timeZone).map (fun req => req.jobID))
    ∧ ((App.processJobsForTimeZone db hour minute month mday wday year timestamp
          timeZone).map (fun req => req.jobID)).Nodup := by
  have hperm := processJobsForTimeZone_jobIDs db hour minute month mday wday year timestamp
    timeZone
  have hiff : J.jobid ∈ (App.processJobsForTimeZone db hour minute month mday wday year
        timestamp timeZone).map (fun req => req.jobID)
      ↔ J.enabled = true
        ∧ (-1 ∈ scheduleSet db.job_hours J.jobid ∨ hour ∈ scheduleSet db.job_hours J.jobid)
        ∧ (-1 ∈ scheduleSet db.job_minutes J.jobid ∨ minute ∈ scheduleSet db.job_minutes J.jobid)
        ∧ (-1 ∈ scheduleSet db.job_mdays J.jobid ∨ mday ∈ scheduleSet db.job_mdays J.jobid)
        ∧ (-1 ∈ scheduleSet db.job_wdays J.jobid ∨ wday ∈ scheduleSet db.job_wdays J.jobid)
        ∧ (-1 ∈ scheduleSet db.job_months J.jobid
            ∨ month ∈ scheduleSet db.job_months J.jobid) := by
    rw [hperm.mem_iff, List.mem_dedup, List.mem_map]
    simp only [List.mem_filter, App.jobWhere, decide_eq_true_eq]
    rw [← schedule_match_iff, ← schedule_match_iff, ← schedule_match_iff, ← schedule_match_iff,
      ← schedule_match_iff]
    constructor
    · rintro ⟨r, ⟨hmem, hh, hmi, hmd, hwd, hmo, _, hen⟩, hid⟩
      obtain ⟨hjob, h1, h2, h3, h4, h5, _⟩ := mem_jobJoin_elim db r hmem
      have hrJ : r.job = J := hkey r.job hjob hid
      rw [hrJ] at h1 h2 h3 h4 h5 hen
      exact ⟨hen, ⟨r.hour, h1, hh⟩, ⟨r.minute, h4, hmi⟩, ⟨r.mday, h2, hmd⟩, ⟨r.wday, h3, hwd⟩,
        ⟨r.month, h5, hmo⟩⟩
    · rintro ⟨hen, ⟨rh, h1, hh⟩, ⟨rmi, h4, hmi⟩, ⟨rmd, h2, hmd⟩, ⟨rwd, h3, hwd⟩, ⟨rmo, h5, hmo⟩⟩
      obtain ⟨u, hu, huid, htz⟩ := howner
      obtain ⟨header, body, hmem⟩ :=
        mem_jobJoin_intro db J rh rmd rwd rmi rmo u hJ h1 h2 h3 h4 h5 ⟨hu, huid⟩
      exact ⟨_, ⟨hmem, hh, hmi, hmd, hwd, hmo, htz, hen⟩, rfl⟩
  refine ⟨hiff, ?_, ?_⟩
  · intro hdis hmem
    have := (hiff.mp hmem).1
    rw [hdis] at this
    exact Bool.noConfusion this
  · exact hperm.nodup_iff.mpr (List.nodup_dedup _)

theorem processJobsForTimeZone_selection_witness :
    ((7 : Int) ∈ (App.processJobsForTimeZone scenarioDb 9 55 1 6 1 2020 1578304500
          "Etc/UTC").map (fun req => req.jobID)
      ↔ scenarioJob.enabled = true
        ∧ (-1 ∈ scheduleSet scenarioDb.job_hours 7 ∨ 9 ∈ scheduleSet scenarioDb.job_hours 7)
        ∧ (-1 ∈ scheduleSet scenarioDb.job_minutes 7 ∨ 55 ∈ scheduleSet scenarioDb.job_minutes 7)
        ∧ (-1 ∈ scheduleSet scenarioDb.job_mdays 7 ∨ 6 ∈ scheduleSet scenarioDb.job_mdays 7)
        ∧ (-1 ∈ scheduleSet scenarioDb.job_wdays 7 ∨ 1 ∈ scheduleSet scenarioDb.job_wdays 7)
        ∧ (-1 ∈ scheduleSet scenarioDb.job_months 7 ∨ 1 ∈ scheduleSet scenarioDb.job_months 7))
    ∧ (scenarioJob.enabled = false →
        (7 : Int) ∉ (App.processJobsForTimeZone scenarioDb 9 55 1 6 1 2020 1578304500
          "Etc/UTC").map (fun req => req.jobID))
    ∧ ((App.processJobsForTimeZone scenarioDb 9 55 1 6 1 2020 1578304500
          "Etc/UTC").map (fun req => req.jobID)).Nodup :=
  processJobsForTimeZone_selection scenarioDb 9 55 1 6 1 2020 1578304500 "Etc/UTC" scenarioJob
    (by decide) (by decide) (by decide)

/-! ## C8: at most one tick per minute -/

/-- C8: in a run of the tick loop over non-decreasing wall-clock samples, with
the constant jitter offset of `calcJitterCorrectionOffset` and a `localtime`
whose seconds field is non-negative and whose calendar minute covers the
instants from `t - tm_sec` to `t`, every call of `processJobs` has
`plannedTime` = sampled time minus its seconds field, the planned times of
successive calls strictly increase, so each value occurs at most once, and
after a call no later sample with the same minute boundary fires; where equal
calendar fields imply equal minute boundaries, no later sample with the same
calendar fields fires. -/
theorem run_at_most_once_per_minute (localtime : Int → Tm) (clocks : List Int)
    (hsec : ∀ t, 0 ≤ (localtime t).tm_sec)
    (hmin : ∀ t t', t - (localtime t).tm_sec ≤ t' → t' ≤ t →
      sameMinute (localtime t') (localtime t))
    (hsorted : clocks.Sorted (· ≤ ·)) :
    (∀ s call, (s, some call) ∈ App.run localtime clocks →
      call.forTime = s + App.calcJitterCorrectionOffset
        ∧ call.plannedTime = call.forTime - (localtime call.forTime).tm_sec)
    ∧ (∀ M, (plannedTimes (App.run localtime clocks)).count M ≤ 1)
    ∧ ((App.run localtime clocks).Pairwise fun x y =>
        x.2.isSome = true →
          y.1 + 1 - (localtime (y.1 + 1)).tm_sec = x.1 + 1 - (localtime (x.1 + 1)).tm_sec →
          y.2 = none)
    ∧ ((∀ t t', sameMinute (localtime t) (localtime t') →
          t - (localtime t).tm_sec = t' - (localtime t').tm_sec) →
        (App.run localtime clocks).Pairwise fun x y =>
          x.2.isSome = true → sameMinute (localtime (y.1 + 1)) (localtime (x.1 + 1)) →
            y.2 = none) := by
  have hform := runLoop_call_form localtime clocks
    { firstLoop := true
      lastTime := { tm_sec := 0, tm_min := 0, tm_hour := 0, tm_mday := 0, tm_mon := 0,
                    tm_year := 0 }
      jitterCorrectionOffset := App.calcJitterCorrectionOffset } rfl
  have hinc := runLoop_planned_increasing localtime hsec hmin clocks
    { firstLoop := true
      lastTime := { tm_sec := 0, tm_min := 0, tm_hour := 0, tm_mday := 0, tm_mon := 0,
                    tm_year := 0 }
      jitterCorrectionOffset := App.calcJitterCorrectionOffset } rfl hsorted
  refine ⟨?_, ?_, ?_, ?_⟩
  · intro s call h
    obtain ⟨h1, h2⟩ := hform s call h
    refine ⟨h1, ?_⟩
    rw [h2, h1]
  · intro M
    apply count_le_one_of_pairwise_lt
    unfold plannedTimes
    rw [List.pairwise_map, List.pairwise_filterMap]
    exact hinc
  · have hmem : ∀ x ∈ App.run localtime clocks, ∀ cx ∈ x.2,
        cx.plannedTime = x.1 + 1 - (localtime (x.1 + 1)).tm_sec := by
      rintro ⟨s, o⟩ hx cx hcx
      have ho : o = some cx := hcx
      rw [ho] at hx
      exact (hform s cx hx).2
    refine (List.Pairwise.and_mem.mp hinc).imp ?_
    rintro ⟨s, o⟩ ⟨s', o'⟩ ⟨hx, hy, hlt⟩ hsome heq
    obtain ⟨cx, hcx⟩ := Option.isSome_iff_exists.mp hsome
    cases o' with
    | none => rfl
    | some cy =>
      have h1 := hmem _ hx cx hcx
      have h2 := hmem _ hy cy rfl
      have h3 := hlt cx hcx cy rfl
      simp only at heq h1 h2
      omega
  · intro hinj
    exact runLoop_no_refire localtime hsec hmin hinj clocks _ rfl hsorted

theorem run_at_most_once_per_minute_witness :
    (∀ s call, (s, some call) ∈ App.run utcTime [57, 58, 58, 59, 60, 118, 119, 119, 120] →
      call.forTime = s + App.calcJitterCorrectionOffset
        ∧ call.plannedTime = call.forTime - (utcTime call.forTime).tm_sec)
    ∧ (∀ M, (plannedTimes (App.run utcTime [57, 58, 58, 59, 60, 118, 119, 119, 120])).count M
        ≤ 1)
    ∧ ((App.run utcTime [57, 58, 58, 59, 60, 118, 119, 119, 120]).Pairwise fun x y =>
        x.2.isSome = true →
          y.1 + 1 - (utcTime (y.1 + 1)).tm_sec = x.1 + 1 - (utcTime (x.1 + 1)).tm_sec →
          y.2 = none)
    ∧ ((App.run utcTime [57, 58, 58, 59, 60, 118, 119, 119, 120]).Pairwise fun x y =>
        x.2.isSome = true → sameMinute (utcTime (y.1 + 1)) (utcTime (x.1 + 1)) →
          y.2 = none)
    ∧ plannedTimes (App.run utcTime [57, 58, 58, 59, 60, 118, 119, 119, 120]) = [0, 60, 120] :=
  have h := run_at_most_once_per_minute utcTime [57, 58, 58, 59, 60, 118, 119, 119, 120]
    utcTime_sec_nonneg utcTime_minute_interval (by decide)
  ⟨h.1, h.2.1, h.2.2.1, h.2.2.2 utcTime_minute_injective, by decide⟩

/-! ## C10: derivation of the user directory -/

/-- C10 (the code at a failing input): for the scheme `/var/lib/%u%u` and user id
1, whose path part is the single character `1`, `Utils::replace` resumes its
search two characters after the match, beyond the start of the second `%u`,
and the directory path keeps one `%u`. -/
theorem dbDirPath_adjacent_placeholders :
    Utils.userPathPart 1 = "1"
    ∧ UpdateThread.dbDirPath { scenarioConfig with userDbFilePathScheme := "/var/lib/%u%u" }
        { scenarioFailure with userID := 1 } = some "/var/lib/1%u" := by
  decide

/-! ## Lemmas on the replacement of a two-character placeholder -/

theorem isPrefixOf_placeholder (x c : Char) (cs : List Char) :
    List.isPrefixOf ['%', x] (c :: cs) = true ↔ c = '%' ∧ ∃ rest, cs = x :: rest := by
  cases cs with
  | nil => simp [List.isPrefixOf]
  | cons d rest =>
    simp only [List.isPrefixOf, Bool.and_true, Bool.and_eq_true, beq_iff_eq, List.cons.injEq,
      exists_and_left, exists_eq', and_true]
    constructor
    · rintro ⟨h1, h2⟩
      exact ⟨h1.symm, h2.symm⟩
    · rintro ⟨h1, h2⟩
      exact ⟨h1.symm, h2.symm⟩

theorem replacePlaceholder_nil (x : Char) (repl : List Char) :
    replacePlaceholder x repl [] = [] := by
  simp [replacePlaceholder]

theorem replacePlaceholder_match (x : Char) (repl rest : List Char) :
    replacePlaceholder x repl ('%' :: x :: rest) = repl ++ replacePlaceholder x repl rest := by
  simp [replacePlaceholder]

theorem replacePlaceholder_skip (x : Char) (repl : List Char) (c : Char) (cs : List Char)
    (h : ¬ (c = '%' ∧ ∃ rest, cs = x :: rest)) :
    replacePlaceholder x repl (c :: cs) = c :: replacePlaceholder x repl cs := by
  cases cs with
  | nil => simp [replacePlaceholder]
  | cons d rest =>
    have h' : ¬ (c = '%' ∧ d = x) := fun hc => h ⟨hc.1, rest, by rw [hc.2]⟩
    simp only [replacePlaceholder, if_neg h']

theorem replacePlaceholder_append_left (x : Char) (repl : List Char) (u b : List Char)
    (hu : '%' ∉ u) :
    replacePlaceholder x repl (u ++ b) = u ++ replacePlaceholder x repl b := by
  induction u with
  | nil => rfl
  | cons c u' ih =>
    have hc : c ≠ '%' := fun h => hu (by simp [h])
    have hu' : '%' ∉ u' := fun h => hu (List.mem_cons_of_mem _ h)
    rw [List.cons_append, replacePlaceholder_skip x repl c _ (fun h => hc h.1), ih hu']
    rfl

theorem findAux_none_placeholder (x : Char) (repl : List Char) (l : List Char) :
    ∀ i, Utils.findAux ['%', x] l i = none → replacePlaceholder x repl l = l := by
  induction l with
  | nil => intro i _; exact replacePlaceholder_nil x repl
  | cons c cs ih =>
    intro i h
    simp only [Utils.findAux] at h
    split at h
    · exact Option.noConfusion h
    · rename_i hpre
      rw [isPrefixOf_placeholder] at hpre
      rw [replacePlaceholder_skip x repl c cs hpre, ih (i + 1) h]

theorem findAux_some_placeholder (x : Char) (repl : List Char) (l : List Char) :
    ∀ i p, Utils.findAux ['%', x] l i = some p →
      ∃ a b, l = a ++ ['%', x] ++ b ∧ p = i + a.length
        ∧ replacePlaceholder x repl l = a ++ repl ++ replacePlaceholder x repl b := by
  induction l with
  | nil =>
    intro i p h
    simp [Utils.findAux, List.isPrefixOf] at h
  | cons c cs ih =>
    intro i p h
    simp only [Utils.findAux] at h
    split at h
    · rename_i hpre
      obtain ⟨hc, rest, hcs⟩ := (isPrefixOf_placeholder x c cs).mp hpre
      subst hc
      subst hcs
      refine ⟨[], rest, rfl, ?_, ?_⟩
      · simpa using (Option.some.inj h).symm
      · rw [replacePlaceholder_match]
        rfl
    · rename_i hpre
      rw [isPrefixOf_placeholder] at hpre
      obtain ⟨a, b, hl, hp, hr⟩ := ih (i + 1) p h
      refine ⟨c :: a, b, ?_, ?_, ?_⟩
      · rw [hl]
        rfl
      · simp only [List.length_cons]
        omega
      · rw [replacePlaceholder_skip x repl c cs hpre, hr]
        rfl

theorem replaceLoop_placeholder (x : Char) (repl : List Char) (hlen : 2 ≤ repl.length)
    (hno : '%' ∉ repl) :
    ∀ fuel str pos, pos ≤ str.length → (str.drop pos).count '%' < fuel →
      Utils.replaceLoop ['%', x] repl fuel str pos
        = some (str.take pos ++ replacePlaceholder x repl (str.drop pos)) := by
  intro fuel
  induction fuel with
  | zero => intro str pos _ h; omega
  | succ fuel ih =>
    intro str pos hpos hcount
    simp only [Utils.replaceLoop, Utils.find, if_pos hpos]
    cases hf : Utils.findAux ['%', x] (str.drop pos) pos with
    | none =>
      simp only
      rw [findAux_none_placeholder x repl _ pos hf, List.take_append_drop]
    | some p =>
      simp only
      obtain ⟨a, b, hl, hp, hr⟩ := findAux_some_placeholder x repl _ pos p hf
      have hstr : str = (str.take pos ++ a) ++ ['%', x] ++ b := by
        rw [List.append_assoc, List.append_assoc, ← List.append_assoc a, ← hl,
          List.take_append_drop]
      have hplen : (str.take pos ++ a).length = p := by
        rw [List.length_append, List.length_take, Nat.min_eq_left hpos]
        omega
      have hgen : ∀ front : List Char, str = front ++ ['%', x] ++ b → front.length = p →
          str.take p ++ repl ++ str.drop (p + ['%', x].length) = front ++ (repl ++ b) := by
        intro front h1 h2
        rw [h1, ← h2, replace_step_eq, List.append_assoc]
      have hnew : str.take p ++ repl ++ str.drop (p + ['%', x].length)
          = (str.take pos ++ a) ++ (repl ++ b) := hgen _ hstr hplen
      rw [hnew]
      have hp2 : p + ['%', x].length = (str.take pos ++ a).length + 2 := by
        rw [hplen]
        rfl
      rw [hp2]
      have hcb : (repl.drop 2 ++ b).count '%' < fuel := by
        have h1 : (repl.drop 2).count '%' = 0 :=
          List.count_eq_zero.mpr (fun h => hno (List.mem_of_mem_drop h))
        rw [hl] at hcount
        simp only [List.count_append, List.count_cons, List.count_nil] at hcount
        rw [List.count_append, h1]
        simp only [beq_self_eq_true, if_true] at hcount
        omega
      have hdrop : ((str.take pos ++ a) ++ (repl ++ b)).drop ((str.take pos ++ a).length + 2)
          = repl.drop 2 ++ b := by
        rw [List.drop_append, List.drop_append_of_le_length hlen]
      have htake : ((str.take pos ++ a) ++ (repl ++ b)).take ((str.take pos ++ a).length + 2)
          = (str.take pos ++ a) ++ repl.take 2 := by
        rw [List.take_append, List.take_append_of_le_length hlen]
      rw [ih _ _ (by simp only [List.length_append]; omega) (by rw [hdrop]; exact hcb),
        hdrop, htake,
        replacePlaceholder_append_left x repl _ b (fun h => hno (List.mem_of_mem_drop h)),
        hr]
      congr 1
      simp only [List.append_assoc]
      rw [← List.append_assoc (repl.take 2), List.take_append_drop]

theorem replace_placeholder (x : Char) (str repl : String) (hlen : 2 ≤ repl.data.length)
    (hno : '%' ∉ repl.data) :
    Utils.replace (str.length + 1) str (String.mk ['%', x]) repl
      = some (String.mk (replacePlaceholder x repl.data str.data)) := by
  have h := replaceLoop_placeholder x repl.data hlen hno (str.length + 1) str.data 0
    (Nat.zero_le _) (Nat.lt_succ_of_le (List.count_le_length _ _))
  simp only [List.take_zero, List.drop_zero, List.nil_append] at h
  simp [Utils.replace, h]

theorem replacePlaceholder_cons_ne (x : Char) (repl : List Char) (c : Char) (cs : List Char)
    (hc : c ≠ '%') :
    replacePlaceholder x repl (c :: cs) = c :: replacePlaceholder x repl cs :=
  replacePlaceholder_skip x repl c cs (fun h => hc h.1)

theorem replacePlaceholder_head (x d1 d2 : Char) (c : Char) (cs : List Char) :
    ∃ tl, replacePlaceholder x [d1, d2] (c :: cs) = c :: tl
      ∨ replacePlaceholder x [d1, d2] (c :: cs) = d1 :: tl := by
  by_cases h : c = '%' ∧ ∃ rest, cs = x :: rest
  · obtain ⟨hc, rest, hcs⟩ := h
    subst hc
    subst hcs
    exact ⟨d2 :: replacePlaceholder x [d1, d2] rest, Or.inr (replacePlaceholder_match _ _ _)⟩
  · exact ⟨_, Or.inl (replacePlaceholder_skip x [d1, d2] c cs h)⟩

theorem replacePlaceholder_m_after_d (d1 d2 : Char) (month : List Char)
    (h1 : d1 ≠ '%') (h1m : d1 ≠ 'm') (h2 : d2 ≠ '%') :
    ∀ n (s : List Char), s.length ≤ n →
      replacePlaceholder 'm' month (replacePlaceholder 'd' [d1, d2] s)
        = substituteDayMonth [d1, d2] month s := by
  intro n
  induction n with
  | zero =>
    intro s hs
    have : s = [] := List.length_eq_zero.mp (Nat.le_zero.mp hs)
    subst this
    simp [replacePlaceholder, substituteDayMonth]
  | succ n ih =>
    intro s hs
    match s, hs with
    | [], _ => simp [replacePlaceholder, substituteDayMonth]
    | [c], _ => simp [replacePlaceholder, substituteDayMonth]
    | c :: e :: rest, hs =>
      have hrest : rest.length ≤ n := by
        simp only [List.length_cons] at hs
        omega
      have htail : (e :: rest).length ≤ n := by
        simp only [List.length_cons] at hs ⊢
        omega
      by_cases hd : c = '%' ∧ e = 'd'
      · obtain ⟨hc, he⟩ := hd
        subst hc
        subst he
        rw [replacePlaceholder_match]
        have hs' : substituteDayMonth [d1, d2] month ('%' :: 'd' :: rest)
            = [d1, d2] ++ substituteDayMonth [d1, d2] month rest := by
          simp [substituteDayMonth]
        rw [hs', ← ih rest hrest]
        show replacePlaceholder 'm' month (d1 :: d2 :: _) = _
        rw [replacePlaceholder_cons_ne 'm' month d1 _ h1,
          replacePlaceholder_cons_ne 'm' month d2 _ h2]
        rfl
      · by_cases hm : c = '%' ∧ e = 'm'
        · obtain ⟨hc, he⟩ := hm
          subst hc
          subst he
          have hs' : substituteDayMonth [d1, d2] month ('%' :: 'm' :: rest)
              = month ++ substituteDayMonth [d1, d2] month rest := by
            simp [substituteDayMonth]
          rw [hs', ← ih rest hrest,
            replacePlaceholder_skip 'd' [d1, d2] '%' ('m' :: rest) (by simp),
            replacePlaceholder_cons_ne 'd' [d1, d2] 'm' rest (by decide),
            replacePlaceholder_match]
        · have hs' : substituteDayMonth [d1, d2] month (c :: e :: rest)
              = c :: substituteDayMonth [d1, d2] month (e :: rest) := by
            simp only [substituteDayMonth, if_neg hd, if_neg hm]
          have hinner : replacePlaceholder 'd' [d1, d2] (c :: e :: rest)
              = c :: replacePlaceholder 'd' [d1, d2] (e :: rest) := by
            apply replacePlaceholder_skip
            rintro ⟨hc, r, hr⟩
            exact hd ⟨hc, (List.cons.inj hr).1⟩
          rw [hs', hinner, ← ih (e :: rest) htail]
          apply replacePlaceholder_skip
          rintro ⟨hc, r, hr⟩
          obtain ⟨tl, htl | htl⟩ := replacePlaceholder_head 'd' d1 d2 e rest
          · rw [htl] at hr
            exact hm ⟨hc, (List.cons.inj hr).1⟩
          · rw [htl] at hr
            exact h1m (List.cons.inj hr).1

theorem digitChar_ne_m (d : Nat) (h : d < 16) : Nat.digitChar d ≠ 'm' :=
  digitChar_ne_of_lt 'm' (by decide) d h

theorem toString_two_digits (num : Int) (h0 : 0 ≤ num) (h1 : num ≤ 99) :
    (Utils.toString num 2).data = twoDigits num.toNat := by
  obtain ⟨k, rfl⟩ := Int.eq_ofNat_of_zero_le h0
  have hk : k ≤ 99 := by omega
  have hneg : ¬ ((k : Int) < 0) := by omega
  simp only [Utils.toString, hneg, if_false, Int.natAbs_ofNat, Int.toNat_ofNat, twoDigits]
  by_cases hsmall : k / 10 = 0
  · have hmod : k % 10 = k := by omega
    rw [toDigits_small 10 k hsmall, hmod, hsmall]
    rfl
  · have hq : k / 10 / 10 = 0 := by omega
    have hqm : k / 10 % 10 = k / 10 := by omega
    rw [toDigits_step 10 (by omega) k hsmall, toDigits_small 10 (k / 10) hq, hqm]
    rfl

/-! ## C11: derivation of the file name -/

/-- C11: for a decomposition of the planned instant with `tm_mon` in 0..11 and
`tm_mday` in 1..31, the two replacement texts are the day and the raw month
field written as exactly two decimal digits, and the file name computed by
`storeResult` is the name scheme with every occurrence of `%d` replaced by the
day text and every occurrence of `%m` replaced by the month text (replacing
both at once or one after the other gives the same text); `storeResult` returns
and touches no database file other than the one of that name in the user
directory. -/
theorem dbFileName_day_month (self : UpdateThread) (tmStruct : Tm)
    (hmon : 0 ≤ tmStruct.tm_mon ∧ tmStruct.tm_mon ≤ 11)
    (hmday : 1 ≤ tmStruct.tm_mday ∧ tmStruct.tm_mday ≤ 31) :
    (Utils.toString tmStruct.tm_mday 2).data = twoDigits tmStruct.tm_mday.toNat
    ∧ (Utils.toString tmStruct.tm_mon 2).data = twoDigits tmStruct.tm_mon.toNat
    ∧ UpdateThread.dbFileName self tmStruct =
        some (String.mk (substituteDayMonth (twoDigits tmStruct.tm_mday.toNat)
          (twoDigits tmStruct.tm_mon.toNat) self.userDbFileNameScheme.data))
    ∧ substituteDayMonth (twoDigits tmStruct.tm_mday.toNat) (twoDigits tmStruct.tm_mon.toNat)
          self.userDbFileNameScheme.data
        = replacePlaceholder 'm' (twoDigits tmStruct.tm_mon.toNat)
            (replacePlaceholder 'd' (twoDigits tmStruct.tm_mday.toNat)
              self.userDbFileNameScheme.data)
    ∧ (∀ (gmtime_r : Int → Option Tm) (now created : Int) (fault : Option SQLiteStep)
        (w : World) (result : JobResult),
        gmtime_r (result.datePlanned / 1000 : Nat) = some tmStruct →
        ∃ dir w', UpdateThread.dbDirPath self result = some dir
          ∧ UpdateThread.storeResult self gmtime_r now created fault w result
              = some (Except.ok w')
          ∧ ∀ p, p ≠ dir ++ "/" ++ String.mk (substituteDayMonth
                (twoDigits tmStruct.tm_mday.toNat) (twoDigits tmStruct.tm_mon.toNat)
                self.userDbFileNameScheme.data) →
              w'.userDBs p = w.userDBs p) := by
  have hday := toString_two_digits tmStruct.tm_mday (by omega) (by omega)
  have hmonth := toString_two_digits tmStruct.tm_mon hmon.1 (by omega)
  have hd10 : tmStruct.tm_mday.toNat / 10 < 16 := by omega
  have hd1 : tmStruct.tm_mday.toNat % 10 < 16 := by omega
  have hname : UpdateThread.dbFileName self tmStruct =
      some (String.mk (substituteDayMonth (twoDigits tmStruct.tm_mday.toNat)
        (twoDigits tmStruct.tm_mon.toNat) self.userDbFileNameScheme.data)) := by
    have hstep1 := replace_placeholder 'd' self.userDbFileNameScheme
      (Utils.toString tmStruct.tm_mday 2) (by rw [hday]; exact Nat.le_refl 2)
      (percent_not_mem_toString _ _)
    have hstep2 := replace_placeholder 'm'
      (String.mk (replacePlaceholder 'd' (Utils.toString tmStruct.tm_mday 2).data
        self.userDbFileNameScheme.data))
      (Utils.toString tmStruct.tm_mon 2) (by rw [hmonth]; exact Nat.le_refl 2)
      (percent_not_mem_toString _ _)
    have hsearch1 : ("%d" : String) = String.mk ['%', 'd'] := rfl
    have hsearch2 : ("%m" : String) = String.mk ['%', 'm'] := rfl
    unfold UpdateThread.dbFileName
    rw [hsearch1, hsearch2, hstep1]
    simp only [Option.some_bind]
    rw [hstep2, hday, hmonth]
    congr 2
    exact replacePlaceholder_m_after_d _ _ _ (digitChar_ne_percent _ hd10)
      (digitChar_ne_m _ hd10) (digitChar_ne_percent _ hd1) _ _ (Nat.le_refl _)
  refine ⟨hday, hmonth, hname, ?_, ?_⟩
  · exact (replacePlaceholder_m_after_d _ _ _ (digitChar_ne_percent _ hd10)
      (digitChar_ne_m _ hd10) (digitChar_ne_percent _ hd1) _ _ (Nat.le_refl _)).symm
  intro gmtime_r now created fault w result htm
  obtain ⟨dir, hdir⟩ := dbDirPath_isSome self result
  have hpath : UpdateThread.dbFilePath self tmStruct result
      = some (dir ++ "/" ++ String.mk (substituteDayMonth (twoDigits tmStruct.tm_mday.toNat)
          (twoDigits tmStruct.tm_mon.toNat) self.userDbFileNameScheme.data)) := by
    simp [UpdateThread.dbFilePath, hdir, hname]
  refine ⟨dir, _, hdir,
    storeResult_eq self gmtime_r now created fault w result tmStruct _ htm hpath, ?_⟩
  intro p hp
  show Function.update w.userDBs _ _ p = _
  exact Function.update_noteq hp _ _

theorem dbFileName_day_month_witness :
    UpdateThread.dbFileName scenarioConfig (utcTime 1578304500) =
        some (String.mk (substituteDayMonth (twoDigits 6) (twoDigits 0)
          scenarioConfig.userDbFileNameScheme.data))
    ∧ (utcTime 1578304500).tm_mday = 6 ∧ (utcTime 1578304500).tm_mon = 0
    ∧ twoDigits 6 = ['0', '6'] ∧ twoDigits 0 = ['0', '0']
    ∧ String.mk (substituteDayMonth (twoDigits 6) (twoDigits 0)
          scenarioConfig.userDbFileNameScheme.data) = "joblog-00-06.db" :=
  ⟨(dbFileName_day_month scenarioConfig (utcTime 1578304500) (by decide) (by decide)).2.2.1,
    by decide, by decide, by decide, by decide, by decide⟩

end Chronos
